import Mathlib

/-! # Decision engine of the grid bot (`src/client/client_zeid.cpp`)

A shallow embedding of `BotClient::is_valid_move`, `BotClient::floodFill`,
`BotClient::decideMove` and `BotClient::receiveGameState`, followed by the
properties proved about them.

Conventions of the embedding:

* C++ `int` is `Int`; coordinates of in-grid cells and areas stay far below
  the machine range, so no wrap-around is modelled.
* An access outside a `std::vector` (undefined behaviour in C++) is the
  outcome `fault`; `exit(1)` is the outcome `exit 1`; a loop that has not
  finished within its fuel is the outcome `diverge`.
* `api.h` and `utils.h` are not part of the sources at hand; the few
  declarations used from them are modelled from the specification and marked
  as such.
-/

namespace Cycles

/-! ## Data model -/

/-- Integer grid coordinate (`sf::Vector2i`). -/
structure Vector2i where
  x : Int
  y : Int
deriving DecidableEq, Repr

instance : Add Vector2i := ⟨fun a b => ⟨a.x + b.x, a.y + b.y⟩⟩

/-- Modelled from the spec: the enumeration `Direction` of `api.h` (not in the
sources), "one of four cardinal values {Up, Down, Left, Right}". -/
inductive Direction where
  | up
  | down
  | left
  | right
deriving DecidableEq, Repr

/-- Modelled from the spec: `getDirectionVector` of `api.h` (not in the
sources), "each maps to a unit displacement vector"; screen coordinates, `y`
grows downwards. -/
def getDirectionVector : Direction → Vector2i
  | .up => ⟨0, -1⟩
  | .down => ⟨0, 1⟩
  | .left => ⟨-1, 0⟩
  | .right => ⟨1, 0⟩

/-- Modelled from the spec: `getDirectionFromValue` of `api.h` (not in the
sources), the "fixed canonical order" in which the four directions are
numbered 0..3. -/
def getDirectionFromValue (value : Int) : Direction :=
  if value = 0 then .up
  else if value = 1 then .down
  else if value = 2 then .left
  else .right

/-- Modelled from the spec: `Player` of `api.h` (not in the sources), "the list
of players with name and position". -/
structure Player where
  name : String
  position : Vector2i
deriving DecidableEq, Repr

/-- Modelled from the spec: `GameState` of `api.h` (not in the sources), "a
snapshot containing grid dimensions, per-cell occupancy, and the list of
players". The occupancy is the read-only query of a cell's marker, `0` being
the free sentinel. -/
structure GameState where
  gridWidth : Int
  gridHeight : Int
  grid : Vector2i → Nat
  players : List Player

/-- Modelled from the spec: `GameState::isInsideGrid` of `api.h` (not in the
sources), `0 <= p.x < W` and `0 <= p.y < H`. -/
def GameState.isInsideGrid (state : GameState) (pos : Vector2i) : Bool :=
  decide (0 ≤ pos.x ∧ pos.x < state.gridWidth ∧ 0 ≤ pos.y ∧ pos.y < state.gridHeight)

/-- Modelled from the spec: `GameState::getGridCell` of `api.h` (not in the
sources), the occupancy marker of a cell; reading a cell outside the grid is
an out-of-range access and yields `none`. -/
def GameState.getGridCell (state : GameState) (pos : Vector2i) : Option Nat :=
  if state.isInsideGrid pos then some (state.grid pos) else none

/-- Result of running a piece of the client: a value, an out-of-range access
(`fault`), a call of `exit` with its code, or a loop out of fuel. -/
inductive Outcome (α : Type) where
  | ok (a : α)
  | fault
  | exit (code : Int)
  | diverge
deriving DecidableEq, Repr

/-- The scratch matrix `std::vector<std::vector<bool>>`, indexed `[x][y]`. -/
abbrev Visited := List (List Bool)

/-- The matrix `visited(gridWidth, std::vector<bool>(gridHeight, false))`. -/
def newVisited (state : GameState) : Visited :=
  List.replicate state.gridWidth.toNat (List.replicate state.gridHeight.toNat false)

/-- Read `visited[pos.x][pos.y]`; `none` when an index is out of range. -/
def vget (visited : Visited) (pos : Vector2i) : Option Bool :=
  if pos.x < 0 ∨ pos.y < 0 then none
  else
    match visited[pos.x.toNat]? with
    | none => none
    | some row => row[pos.y.toNat]?

/-- Write `visited[pos.x][pos.y] = true`; `none` when an index is out of
range. -/
def vset (visited : Visited) (pos : Vector2i) : Option Visited :=
  if pos.x < 0 ∨ pos.y < 0 then none
  else
    match visited[pos.x.toNat]? with
    | none => none
    | some row =>
      if pos.y.toNat < row.length then
        some (visited.set pos.x.toNat (row.set pos.y.toNat true))
      else none

/-- The fields of `BotClient` the decision engine reads and writes. The
connection and the random engine are external: the snapshot received and the
value drawn are arguments of the operations below. -/
structure BotClient where
  name : String
  state : GameState
  my_player : Player

/-! ## Operations -/

/-- `BotClient::is_valid_move`. -/
def is_valid_move (bot : BotClient) (direction : Direction) : Outcome Bool :=
  let new_pos := bot.my_player.position + getDirectionVector direction
  if !bot.state.isInsideGrid new_pos then .ok false
  else
    match bot.state.getGridCell new_pos with
    | none => .fault
    | some cell => if cell != 0 then .ok false else .ok true

/-- The four positions pushed at the end of one iteration of the flood fill,
in the order of the values listed in `order`. -/
def pushNeighbours (order : List Int) (pos : Vector2i) : List Vector2i :=
  order.map fun dir_value => pos + getDirectionVector (getDirectionFromValue dir_value)

/-- The `while (!queue.empty())` loop of `BotClient::floodFill`; one unit of
fuel per evaluation of the loop condition. The queue is a list, front first. -/
def floodLoop (state : GameState) :
    Nat → List Vector2i → Visited → Int → Outcome (Int × Visited)
  | 0, _, _, _ => .diverge
  | _ + 1, [], visited, area => .ok (area, visited)
  | fuel + 1, pos :: queue, visited, area =>
    if !state.isInsideGrid pos then floodLoop state fuel queue visited area
    else
      match vget visited pos with
      | none => .fault
      | some true => floodLoop state fuel queue visited area
      | some false =>
        match state.getGridCell pos with
        | none => .fault
        | some cell =>
          if cell != 0 then floodLoop state fuel queue visited area
          else
            match vset visited pos with
            | none => .fault
            | some visited' =>
              floodLoop state fuel (queue ++ pushNeighbours [0, 1, 2, 3] pos) visited'
                (area + 1)

/-- Number of loop-condition evaluations granted to `floodFill`: every cell of
the grid is counted at most once and pushes four positions, plus the start
position and the final test on the empty queue. -/
def floodFuel (state : GameState) : Nat :=
  4 * (state.gridWidth.toNat * state.gridHeight.toNat) + 2

/-- `BotClient::floodFill`: the area, together with the final content of the
caller's `visited`. -/
def floodFill (state : GameState) (start_pos : Vector2i) (visited : Visited) :
    Outcome (Int × Visited) :=
  floodLoop state (floodFuel state) [start_pos] visited 0

/-- First loop of `BotClient::decideMove`: over the direction values still to
try, with the vector `moves` built so far. -/
def movesLoop (bot : BotClient) :
    List Int → List (Direction × Int) → Outcome (List (Direction × Int))
  | [], moves => .ok moves
  | dir_value :: rest, moves =>
    let dir := getDirectionFromValue dir_value
    match is_valid_move bot dir with
    | .ok true =>
      let new_pos := bot.my_player.position + getDirectionVector dir
      let visited := newVisited bot.state
      match floodFill bot.state new_pos visited with
      | .ok (area, _) => movesLoop bot rest (moves ++ [(dir, area)])
      | .fault => .fault
      | .exit code => .exit code
      | .diverge => .diverge
    | .ok false => movesLoop bot rest moves
    | .fault => .fault
    | .exit code => .exit code
    | .diverge => .diverge

/-- Second loop of `BotClient::decideMove`: over the moves still to look at,
with the current `max_area` and `best_moves`. -/
def bestLoop : List (Direction × Int) → Int → List Direction → Int × List Direction
  | [], max_area, best_moves => (max_area, best_moves)
  | move :: rest, max_area, best_moves =>
    if move.2 > max_area then bestLoop rest move.2 [move.1]
    else if move.2 = max_area then bestLoop rest max_area (best_moves ++ [move.1])
    else bestLoop rest max_area best_moves

/-- `BotClient::decideMove`. The argument `rng` stands for the draw
`dist(rng)`: it is read as the index drawn, reduced modulo `size` so that every
natural number denotes an index in `0 .. size - 1`; which state of the engine
yields which index is not modelled. Indexing `best_moves` out of range is a
fault. -/
def decideMove (bot : BotClient) (rng : Nat) : Outcome Direction :=
  match movesLoop bot [0, 1, 2, 3] [] with
  | .ok moves =>
    if moves.isEmpty then .exit 1
    else
      let best_moves := (bestLoop moves (-1) []).2
      match best_moves[rng % best_moves.length]? with
      | some best_direction => .ok best_direction
      | none => .fault
  | .fault => .fault
  | .exit code => .exit code
  | .diverge => .diverge

/-- The `for` loop with `break` of `BotClient::receiveGameState`: the first
player of the list whose name is `name`, else the player held before. -/
def findPlayer (name : String) : List Player → Player → Player
  | [], my_player => my_player
  | player :: rest, my_player =>
    if player.name == name then player else findPlayer name rest my_player

/-- `BotClient::receiveGameState`, `snapshot` being what the connection
delivers. The function has no failing path. -/
def receiveGameState (bot : BotClient) (snapshot : GameState) : Outcome BotClient :=
  .ok { bot with state := snapshot, my_player := findPlayer bot.name snapshot.players bot.my_player }

/-! ## Specification-side notions -/

/-- A cell is free: inside the grid and holding the free marker `0`. -/
def Free (state : GameState) (p : Vector2i) : Prop :=
  state.isInsideGrid p = true ∧ state.grid p = 0

/-- Cardinal adjacency: the two cells differ by one unit in exactly one
coordinate. -/
def Cardinal (p q : Vector2i) : Prop :=
  (p.x - q.x).natAbs + (p.y - q.y).natAbs = 1

/-- `Conn P a c`: there is a path from `a` to `c` of cardinally adjacent cells
that all satisfy `P` (both ends included). -/
inductive Conn (P : Vector2i → Prop) : Vector2i → Vector2i → Prop where
  | refl (a : Vector2i) : P a → Conn P a a
  | step (a b c : Vector2i) : P a → Cardinal a b → Conn P b c → Conn P a c

/-- `c` lies in the 4-connected component of free cells of `a`. -/
def Connected (state : GameState) (a c : Vector2i) : Prop :=
  Conn (Free state) a c

/-- The 5x5 grid of scenario A, every cell free. -/
def emptyGrid5 : GameState :=
  { gridWidth := 5, gridHeight := 5, grid := fun _ => 0, players := [] }

/-- The agent of scenario A, at the centre of `emptyGrid5`. -/
def centreBot : BotClient :=
  { name := "zeid", state := emptyGrid5, my_player := { name := "zeid", position := ⟨2, 2⟩ } }

instance (state : GameState) (p : Vector2i) : Decidable (Free state p) := by
  unfold Free; infer_instance

/-- The visited matrix has the dimensions of the grid: `gridWidth` rows of
`gridHeight` entries each. -/
def WellSized (state : GameState) (visited : Visited) : Prop :=
  visited.length = state.gridWidth.toNat ∧ ∀ row ∈ visited, row.length = state.gridHeight.toNat

/-- A cell the flood fill would count: free and not yet visited. -/
def IsOpen (state : GameState) (visited : Visited) (p : Vector2i) : Prop :=
  Free state p ∧ vget visited p = some false

/-- `c` is reachable from some position of the queue through cells
satisfying `P`. -/
def ReachFrom (P : Vector2i → Prop) (queue : List Vector2i) (c : Vector2i) : Prop :=
  ∃ q ∈ queue, Conn P q c

/-- All cells of the grid. -/
def allCells (state : GameState) : Finset Vector2i :=
  ((Finset.range state.gridWidth.toNat) ×ˢ (Finset.range state.gridHeight.toNat)).image
    fun ij => ⟨(ij.1 : Int), (ij.2 : Int)⟩

/-- Number of grid cells whose visited entry is still `false`. -/
def unvisitedCount (state : GameState) (visited : Visited) : Nat :=
  ((allCells state).filter fun p => vget visited p = some false).card

/-- The flood-fill loop with the traversal order left open: `pick` chooses
which position of the frontier is taken out next (its value is reduced modulo
the length of the frontier) and `order` lists the direction values in the
order in which the neighbours are pushed. -/
def floodLoopOrd (state : GameState) (pick : List Vector2i → Nat) (order : List Int) :
    Nat → List Vector2i → Visited → Int → Outcome (Int × Visited)
  | 0, _, _, _ => .diverge
  | _ + 1, [], visited, area => .ok (area, visited)
  | fuel + 1, first :: others, visited, area =>
    let i := pick (first :: others) % (first :: others).length
    let pos := (first :: others).getD i first
    let queue := (first :: others).eraseIdx i
    if !state.isInsideGrid pos then floodLoopOrd state pick order fuel queue visited area
    else
      match vget visited pos with
      | none => .fault
      | some true => floodLoopOrd state pick order fuel queue visited area
      | some false =>
        match state.getGridCell pos with
        | none => .fault
        | some cell =>
          if cell != 0 then floodLoopOrd state pick order fuel queue visited area
          else
            match vset visited pos with
            | none => .fault
            | some visited' =>
              floodLoopOrd state pick order fuel (queue ++ pushNeighbours order pos) visited'
                (area + 1)

/-- The flood fill with the traversal order left open, see `floodLoopOrd`. -/
def floodFillOrd (state : GameState) (pick : List Vector2i → Nat) (order : List Int)
    (start_pos : Vector2i) (visited : Visited) : Outcome (Int × Visited) :=
  floodLoopOrd state pick order (floodFuel state) [start_pos] visited 0

/-- Lines 62-64 of `BotClient::decideMove`: the area computed for the landing
cell of a direction, on a freshly allocated visited matrix that is dropped
afterwards. -/
def candidateArea (bot : BotClient) (dir : Direction) : Outcome Int :=
  match floodFill bot.state (bot.my_player.position + getDirectionVector dir)
      (newVisited bot.state) with
  | .ok (area, _) => .ok area
  | .fault => .fault
  | .exit code => .exit code
  | .diverge => .diverge

/-- The landing cell of a direction is free. -/
def Legal (bot : BotClient) (dir : Direction) : Prop :=
  Free bot.state (bot.my_player.position + getDirectionVector dir)

instance (bot : BotClient) (dir : Direction) : Decidable (Legal bot dir) := by
  unfold Legal; infer_instance

/-- The area of `candidateArea` as a plain integer (`0` if there were none). -/
def recordedArea (bot : BotClient) (dir : Direction) : Int :=
  match candidateArea bot dir with
  | .ok area => area
  | _ => 0

/-- The legal directions, in the canonical order. -/
def legalDirs (bot : BotClient) : List Direction :=
  [Direction.up, Direction.down, Direction.left, Direction.right].filter
    fun d => decide (Legal bot d)

/-- Running maximum of the areas of a list of moves, starting from `m`. -/
def maxArea (moves : List (Direction × Int)) (m : Int) : Int :=
  moves.foldl (fun acc move => max acc move.2) m

/-- The largest area among the legal directions (`-1` if there is none). -/
def topArea (bot : BotClient) : Int :=
  maxArea ((legalDirs bot).map fun d => (d, recordedArea bot d)) (-1)

/-- The legal directions whose area is the largest one. -/
def bestDirs (bot : BotClient) : List Direction :=
  (legalDirs bot).filter fun d => decide (recordedArea bot d = topArea bot)

/-- A 4x1 corridor whose second cell is occupied by the agent: one free cell
to its left, two to its right. -/
def corridorGrid : GameState :=
  { gridWidth := 4, gridHeight := 1,
    grid := fun p => if p = ⟨1, 0⟩ then 1 else 0,
    players := [{ name := "zeid", position := ⟨1, 0⟩ }] }

/-- The agent standing in `corridorGrid`. -/
def corridorBot : BotClient :=
  { name := "zeid", state := corridorGrid, my_player := { name := "zeid", position := ⟨1, 0⟩ } }

/-- A snapshot of the empty 5x5 grid whose only player has another name. -/
def strangerSnapshot : GameState :=
  { gridWidth := 5, gridHeight := 5, grid := fun _ => 0,
    players := [{ name := "other", position := ⟨0, 0⟩ }] }

/-- Number of `true` entries of the visited matrix. -/
def trueCount (visited : Visited) : Nat :=
  (visited.map (List.count true)).sum

/-- The test the pre-filtering variant applies to a neighbour before pushing
it: in bounds, free and not yet visited. -/
def worthPushing (state : GameState) (visited : Visited) (next_pos : Vector2i) : Bool :=
  state.isInsideGrid next_pos && (state.getGridCell next_pos == some 0) &&
    (vget visited next_pos == some false)

/-- The flood-fill loop of the variant that filters before pushing: as
`floodLoop`, except that a neighbour is pushed only when `worthPushing` holds
for it; the tests on a position taken out of the queue are kept. -/
def floodLoopPre (state : GameState) :
    Nat → List Vector2i → Visited → Int → Outcome (Int × Visited)
  | 0, _, _, _ => .diverge
  | _ + 1, [], visited, area => .ok (area, visited)
  | fuel + 1, pos :: queue, visited, area =>
    if !state.isInsideGrid pos then floodLoopPre state fuel queue visited area
    else
      match vget visited pos with
      | none => .fault
      | some true => floodLoopPre state fuel queue visited area
      | some false =>
        match state.getGridCell pos with
        | none => .fault
        | some cell =>
          if cell != 0 then floodLoopPre state fuel queue visited area
          else
            match vset visited pos with
            | none => .fault
            | some visited' =>
              floodLoopPre state fuel
                (queue ++ (pushNeighbours [0, 1, 2, 3] pos).filter (worthPushing state visited'))
                visited' (area + 1)

/-- The flood fill that filters before pushing, see `floodLoopPre`. -/
def floodFillPre (state : GameState) (start_pos : Vector2i) (visited : Visited) :
    Outcome (Int × Visited) :=
  floodLoopPre state (floodFuel state) [start_pos] visited 0

instance (state : GameState) (visited : Visited) : Decidable (WellSized state visited) := by
  unfold WellSized; infer_instance

/-- A snapshot of the empty 5x5 grid in which two players carry the agent's
name, after a player with another name. -/
def crowdedSnapshot : GameState :=
  { gridWidth := 5, gridHeight := 5, grid := fun _ => 0,
    players := [{ name := "other", position := ⟨0, 0⟩ },
                { name := "zeid", position := ⟨3, 3⟩ },
                { name := "zeid", position := ⟨4, 4⟩ }] }

/-- The 5x5 grid of scenario A with the agent's own cell blocked: the centre
(2,2) holds a player marker, the 24 other cells are free. -/
def blockedCentreGrid5 : GameState :=
  { gridWidth := 5, gridHeight := 5,
    grid := fun p => if p = ⟨2, 2⟩ then 1 else 0,
    players := [{ name := "zeid", position := ⟨2, 2⟩ }] }

/-- The agent of scenario A, standing on the blocked centre of
`blockedCentreGrid5`. -/
def blockedCentreBot : BotClient :=
  { name := "zeid", state := blockedCentreGrid5,
    my_player := { name := "zeid", position := ⟨2, 2⟩ } }

/-- The visited matrix after a flood fill of `blockedCentreGrid5`: every entry
set except the one of the centre. -/
def blockedCentreVisited : Visited :=
  [[true, true, true, true, true],
   [true, true, true, true, true],
   [true, true, false, true, true],
   [true, true, true, true, true],
   [true, true, true, true, true]]

/-! ## Lemmas on the visited matrix -/

theorem vget_vset {visited visited' : Visited} {p : Vector2i}
    (h : vset visited p = some visited') (q : Vector2i) :
    vget visited' q = if q = p then some true else vget visited q := by
  unfold vset at h
  split at h
  · exact absurd h (by simp)
  · rename_i hp
    push_neg at hp
    split at h
    · exact absurd h (by simp)
    · rename_i row hrow
      split at h
      · rename_i hy
        simp only [Option.some.injEq] at h
        subst h
        have hxlt : p.x.toNat < visited.length := by
          by_contra hc
          rw [List.getElem?_eq_none (by omega)] at hrow
          exact absurd hrow (by simp)
        unfold vget
        by_cases hq : q.x < 0 ∨ q.y < 0
        · have : q ≠ p := by
            rintro rfl
            omega
          simp [hq, this]
        · push_neg at hq
          simp only [not_or.mpr ⟨not_lt.mpr hq.1, not_lt.mpr hq.2⟩, if_false]
          by_cases hx : q.x.toNat = p.x.toNat
          · rw [hx, List.getElem?_set_self hxlt, hrow]
            by_cases hy2 : q.y.toNat = p.y.toNat
            · have : q = p := by
                cases q; cases p
                simp only [Vector2i.mk.injEq] at *
                omega
              simp [this, List.getElem?_set_self hy]
            · have : q ≠ p := by
                rintro rfl
                exact hy2 rfl
              simp [this, List.getElem?_set_ne (Ne.symm hy2)]
          · have : q ≠ p := by
              rintro rfl
              exact hx rfl
            simp [this, List.getElem?_set_ne (Ne.symm hx)]
      · exact absurd h (by simp)

theorem wellSized_newVisited (state : GameState) : WellSized state (newVisited state) := by
  constructor
  · simp [newVisited]
  · intro row hrow
    simp only [newVisited] at hrow
    rw [List.eq_of_mem_replicate hrow]
    simp

theorem inside_iff (state : GameState) (p : Vector2i) :
    state.isInsideGrid p = true ↔
      0 ≤ p.x ∧ p.x < state.gridWidth ∧ 0 ≤ p.y ∧ p.y < state.gridHeight := by
  simp [GameState.isInsideGrid]

theorem vget_isSome_of_wellSized {state : GameState} {visited : Visited}
    (hw : WellSized state visited) {p : Vector2i} (hp : state.isInsideGrid p = true) :
    ∃ b, vget visited p = some b := by
  rw [inside_iff] at hp
  obtain ⟨hx0, hx1, hy0, hy1⟩ := hp
  have hxl : p.x.toNat < visited.length := by rw [hw.1]; omega
  unfold vget
  rw [if_neg (by omega), List.getElem?_eq_getElem hxl]
  have hrow := hw.2 _ (List.getElem_mem hxl)
  have hyl : p.y.toNat < (visited[p.x.toNat]).length := by rw [hrow]; omega
  exact ⟨_, List.getElem?_eq_getElem hyl⟩

theorem vset_isSome_of_vget {visited : Visited} {p : Vector2i} {b : Bool}
    (h : vget visited p = some b) : ∃ visited', vset visited p = some visited' := by
  unfold vget at h
  unfold vset
  split at h
  · exact absurd h (by simp)
  · rename_i hneg
    rw [if_neg hneg]
    split at h
    · exact absurd h (by simp)
    · rename_i row hrow
      have hy : p.y.toNat < row.length := by
        by_contra hc
        rw [List.getElem?_eq_none (by omega)] at h
        exact absurd h (by simp)
      exact ⟨_, if_pos hy⟩

theorem wellSized_vset {state : GameState} {visited visited' : Visited} {p : Vector2i}
    (hw : WellSized state visited) (h : vset visited p = some visited') :
    WellSized state visited' := by
  unfold vset at h
  split at h
  · exact absurd h (by simp)
  · split at h
    · exact absurd h (by simp)
    · rename_i row hrow
      split at h
      · simp only [Option.some.injEq] at h
        subst h
        refine ⟨by simpa using hw.1, ?_⟩
        intro r hr
        rcases List.mem_or_eq_of_mem_set hr with hr | rfl
        · exact hw.2 r hr
        · rw [List.length_set]
          exact hw.2 row (List.getElem?_mem hrow)
      · exact absurd h (by simp)

/-! ## Counting the cells still to visit -/

theorem mem_allCells {state : GameState} {p : Vector2i} (hp : state.isInsideGrid p = true) :
    p ∈ allCells state := by
  rw [inside_iff] at hp
  simp only [allCells, Finset.mem_image, Finset.mem_product, Finset.mem_range, Prod.exists]
  refine ⟨p.x.toNat, p.y.toNat, ⟨by omega, by omega⟩, ?_⟩
  obtain ⟨hx0, -, hy0, -⟩ := hp
  cases p
  simp only [Vector2i.mk.injEq] at *
  constructor <;> omega

theorem card_allCells_le (state : GameState) :
    (allCells state).card ≤ state.gridWidth.toNat * state.gridHeight.toNat := by
  refine le_trans Finset.card_image_le ?_
  simp

theorem unvisitedCount_le (state : GameState) (visited : Visited) :
    unvisitedCount state visited ≤ state.gridWidth.toNat * state.gridHeight.toNat :=
  le_trans (Finset.card_filter_le _ _) (card_allCells_le state)

theorem unvisitedCount_vset {state : GameState} {visited visited' : Visited} {p : Vector2i}
    (hp : state.isInsideGrid p = true) (hv : vget visited p = some false)
    (h : vset visited p = some visited') :
    unvisitedCount state visited' + 1 ≤ unvisitedCount state visited := by
  unfold unvisitedCount
  have hsub : ((allCells state).filter fun q => vget visited' q = some false) ⊆
      ((allCells state).filter fun q => vget visited q = some false).erase p := by
    intro q hq
    simp only [Finset.mem_filter] at hq
    rw [vget_vset h] at hq
    by_cases hqp : q = p
    · simp [hqp] at hq
    · simp only [hqp, if_false] at hq
      simp [Finset.mem_erase, Finset.mem_filter, hqp, hq.1, hq.2]
  have hmem : p ∈ (allCells state).filter fun q => vget visited q = some false := by
    simp [Finset.mem_filter, mem_allCells hp, hv]
  have := Finset.card_le_card hsub
  rw [Finset.card_erase_of_mem hmem] at this
  have hpos : 0 < ((allCells state).filter fun q => vget visited q = some false).card :=
    Finset.card_pos.mpr ⟨p, hmem⟩
  omega

/-! ## Paths of open cells -/

theorem Conn.source {P : Vector2i → Prop} {a c : Vector2i} (h : Conn P a c) : P a := by
  cases h <;> assumption

theorem Conn.target {P : Vector2i → Prop} {a c : Vector2i} (h : Conn P a c) : P c := by
  induction h with
  | refl _ h => exact h
  | step _ _ _ _ _ _ ih => exact ih

theorem Conn.mono {P P' : Vector2i → Prop} (hP : ∀ x, P x → P' x) {a c : Vector2i}
    (h : Conn P a c) : Conn P' a c := by
  induction h with
  | refl a h => exact Conn.refl a (hP a h)
  | step a b c ha hab _ ih => exact Conn.step a b c (hP a ha) hab ih

/-- A path that ends away from `p` either avoids `p` altogether or has a final
stretch that starts at a neighbour of `p` and avoids `p`. -/
theorem Conn.avoid {P : Vector2i → Prop} {p a c : Vector2i} (h : Conn P a c) (hc : c ≠ p) :
    Conn (fun x => P x ∧ x ≠ p) a c ∨
      ∃ n, Cardinal p n ∧ Conn (fun x => P x ∧ x ≠ p) n c := by
  induction h with
  | refl a h => exact Or.inl (Conn.refl a ⟨h, hc⟩)
  | step a b c ha hab _ ih =>
    rcases ih hc with hb | hn
    · by_cases hap : a = p
      · subst hap
        exact Or.inr ⟨b, hab, hb⟩
      · exact Or.inl (Conn.step a b c ⟨ha, hap⟩ hab hb)
    · exact Or.inr hn

theorem reachFrom_congr {P : Vector2i → Prop} {queue queue' : List Vector2i}
    (h : ∀ q, P q → (q ∈ queue ↔ q ∈ queue')) (c : Vector2i) :
    ReachFrom P queue c ↔ ReachFrom P queue' c := by
  constructor
  · rintro ⟨q, hq, hc⟩
    exact ⟨q, (h q hc.source).mp hq, hc⟩
  · rintro ⟨q, hq, hc⟩
    exact ⟨q, (h q hc.source).mpr hq, hc⟩

/-- Taking an open position `pos` out of the frontier, closing it and adding
its neighbours splits the reachable set into `pos` and what is reachable
afterwards. -/
theorem reachFrom_visit {P : Vector2i → Prop} {pos : Vector2i} (hP : P pos)
    {queue queue' : List Vector2i} (hpos : pos ∈ queue)
    (hQ : ∀ q, P q → q ≠ pos → (q ∈ queue' ↔ q ∈ queue ∨ Cardinal pos q)) (c : Vector2i) :
    ReachFrom P queue c ↔ c = pos ∨ ReachFrom (fun x => P x ∧ x ≠ pos) queue' c := by
  constructor
  · rintro ⟨q, hq, hc⟩
    by_cases hcp : c = pos
    · exact Or.inl hcp
    · right
      rcases hc.avoid hcp with h | ⟨n, hn, h⟩
      · exact ⟨q, (hQ q h.source.1 h.source.2).mpr (Or.inl hq), h⟩
      · exact ⟨n, (hQ n h.source.1 h.source.2).mpr (Or.inr hn), h⟩
  · rintro (rfl | ⟨q, hq, hc⟩)
    · exact ⟨c, hpos, Conn.refl c hP⟩
    · have hc' : Conn P q c := hc.mono fun x hx => hx.1
      rcases (hQ q hc.source.1 hc.source.2).mp hq with h | h
      · exact ⟨q, h, hc'⟩
      · exact ⟨pos, hpos, Conn.step pos q c hP h hc'⟩

theorem Vector2i.add_def (a b : Vector2i) : a + b = ⟨a.x + b.x, a.y + b.y⟩ := rfl

theorem mem_pushNeighbours {order : List Int} (hperm : order.Perm [0, 1, 2, 3])
    (p q : Vector2i) : q ∈ pushNeighbours order p ↔ Cardinal p q := by
  have hmem : ∀ v, v ∈ order ↔ v = 0 ∨ v = 1 ∨ v = 2 ∨ v = 3 := by
    intro v
    rw [hperm.mem_iff]
    simp
  cases p with
  | mk px py =>
  cases q with
  | mk qx qy =>
  simp only [pushNeighbours, List.mem_map, hmem, Cardinal]
  constructor
  · rintro ⟨v, hv, h⟩
    rcases hv with rfl | rfl | rfl | rfl <;>
      simp [getDirectionFromValue, getDirectionVector, Vector2i.add_def] at h <;>
      omega
  · intro h
    have h4 : (qx = px + 0 ∧ qy = py + -1) ∨ (qx = px + 0 ∧ qy = py + 1) ∨
        (qx = px + -1 ∧ qy = py + 0) ∨ (qx = px + 1 ∧ qy = py + 0) := by omega
    rcases h4 with ⟨h1, h2⟩ | ⟨h1, h2⟩ | ⟨h1, h2⟩ | ⟨h1, h2⟩
    · exact ⟨0, by simp, by rw [h1, h2]; rfl⟩
    · exact ⟨1, by simp, by rw [h1, h2]; rfl⟩
    · exact ⟨2, by simp, by rw [h1, h2]; rfl⟩
    · exact ⟨3, by simp, by rw [h1, h2]; rfl⟩

theorem isOpen_vset {state : GameState} {visited visited' : Visited} {pos : Vector2i}
    (h : vset visited pos = some visited') (x : Vector2i) :
    IsOpen state visited' x ↔ IsOpen state visited x ∧ x ≠ pos := by
  unfold IsOpen
  rw [vget_vset h]
  by_cases hx : x = pos
  · simp [hx]
  · simp [hx]

/-! ## The flood-fill loop -/

theorem getD_mem_of_lt {l : List Vector2i} {i : Nat} (h : i < l.length) (d : Vector2i) :
    l.getD i d ∈ l := by
  rw [List.getD_eq_getElem l d h]
  exact List.getElem_mem h

theorem mem_eraseIdx_of_ne {l : List Vector2i} {i : Nat} (h : i < l.length) (d q : Vector2i)
    (hq : q ≠ l.getD i d) : q ∈ l.eraseIdx i ↔ q ∈ l := by
  constructor
  · exact fun hm => List.mem_of_mem_eraseIdx hm
  · intro hm
    obtain ⟨j, hj⟩ := List.mem_iff_getElem?.mp hm
    rw [List.mem_eraseIdx_iff_getElem?]
    refine ⟨j, ?_, hj⟩
    rintro rfl
    rw [List.getD_eq_getElem l d h] at hq
    rw [List.getElem?_eq_getElem h] at hj
    exact hq (Option.some.inj hj).symm

theorem getGridCell_of_inside {state : GameState} {p : Vector2i}
    (hp : state.isInsideGrid p = true) : state.getGridCell p = some (state.grid p) := by
  simp [GameState.getGridCell, hp]

/-- One iteration on a position that is not counted. -/
theorem floodLoopOrd_skip (state : GameState) (pick : List Vector2i → Nat) (order : List Int)
    (fuel : Nat) (first : Vector2i) (others : List Vector2i) (visited : Visited) (area : Int)
    (hw : WellSized state visited)
    (h : ¬ IsOpen state visited
      ((first :: others).getD (pick (first :: others) % (first :: others).length) first)) :
    floodLoopOrd state pick order (fuel + 1) (first :: others) visited area =
      floodLoopOrd state pick order fuel
        ((first :: others).eraseIdx (pick (first :: others) % (first :: others).length))
        visited area := by
  simp only [floodLoopOrd]
  split
  · rfl
  · rename_i hin
    simp only [Bool.not_eq_true, Bool.not_eq_eq_eq_not, Bool.not_true, Bool.not_eq_false] at hin
    obtain ⟨b, hb⟩ := vget_isSome_of_wellSized hw hin
    rw [hb, getGridCell_of_inside hin]
    cases b with
    | true => rfl
    | false =>
      simp only
      split
      · rfl
      · rename_i hcell
        exact absurd ⟨⟨hin, by simpa using hcell⟩, hb⟩ h

/-- One iteration on a position that is counted. -/
theorem floodLoopOrd_visit (state : GameState) (pick : List Vector2i → Nat) (order : List Int)
    (fuel : Nat) (first : Vector2i) (others : List Vector2i) (visited visited' : Visited)
    (area : Int)
    (h : IsOpen state visited
      ((first :: others).getD (pick (first :: others) % (first :: others).length) first))
    (hv : vset visited
      ((first :: others).getD (pick (first :: others) % (first :: others).length) first) =
        some visited') :
    floodLoopOrd state pick order (fuel + 1) (first :: others) visited area =
      floodLoopOrd state pick order fuel
        ((first :: others).eraseIdx (pick (first :: others) % (first :: others).length) ++
          pushNeighbours order
            ((first :: others).getD (pick (first :: others) % (first :: others).length) first))
        visited' (area + 1) := by
  obtain ⟨⟨hin, hfree⟩, hb⟩ := h
  simp only [floodLoopOrd, hin, hb, getGridCell_of_inside hin, hv, hfree]
  rfl

/-- Result of the loop from any well-sized state: the area grows by the number
of cells reachable from the frontier through open cells, and exactly those
cells become visited. -/
theorem floodLoopOrd_spec (state : GameState) (pick : List Vector2i → Nat) (order : List Int)
    (hperm : order.Perm [0, 1, 2, 3]) :
    ∀ (fuel : Nat) (queue : List Vector2i) (visited : Visited) (area : Int),
      WellSized state visited →
      4 * unvisitedCount state visited + queue.length < fuel →
      ∃ (S : Finset Vector2i) (final : Visited),
        floodLoopOrd state pick order fuel queue visited area = .ok (area + S.card, final) ∧
        (∀ c, c ∈ S ↔ ReachFrom (IsOpen state visited) queue c) ∧
        WellSized state final ∧
        ∀ c, vget final c = some true ↔ (vget visited c = some true ∨ c ∈ S) := by
  intro fuel
  induction fuel with
  | zero => intro _ _ _ _ h; omega
  | succ fuel ih =>
    intro queue visited area hw hfuel
    cases queue with
    | nil =>
      refine ⟨∅, visited, by simp [floodLoopOrd], ?_, hw, by simp⟩
      intro c
      simp [ReachFrom]
    | cons first others =>
      have hi : pick (first :: others) % (first :: others).length < (first :: others).length :=
        Nat.mod_lt _ (by simp)
      have key : ∀ (pos : Vector2i) (rest : List Vector2i), pos ∈ first :: others →
          rest.length + 1 = (first :: others).length →
          (∀ q, q ≠ pos → (q ∈ rest ↔ q ∈ first :: others)) →
          (¬ IsOpen state visited pos →
            floodLoopOrd state pick order (fuel + 1) (first :: others) visited area =
              floodLoopOrd state pick order fuel rest visited area) →
          (∀ visited', IsOpen state visited pos → vset visited pos = some visited' →
            floodLoopOrd state pick order (fuel + 1) (first :: others) visited area =
              floodLoopOrd state pick order fuel (rest ++ pushNeighbours order pos) visited'
                (area + 1)) →
          ∃ (S : Finset Vector2i) (final : Visited),
            floodLoopOrd state pick order (fuel + 1) (first :: others) visited area =
              .ok (area + S.card, final) ∧
            (∀ c, c ∈ S ↔ ReachFrom (IsOpen state visited) (first :: others) c) ∧
            WellSized state final ∧
            ∀ c, vget final c = some true ↔ (vget visited c = some true ∨ c ∈ S) := by
        intro pos rest hposmem hlen hrest hskip hvisit
        by_cases hopen : IsOpen state visited pos
        · obtain ⟨visited', hv⟩ := vset_isSome_of_vget hopen.2
          have hcount := unvisitedCount_vset hopen.1.1 hopen.2 hv
          rw [hvisit visited' hopen hv]
          obtain ⟨S, final, hrun, hS, hwf, hfin⟩ :=
            ih (rest ++ pushNeighbours order pos) visited' (area + 1) (wellSized_vset hw hv)
              (by simp only [List.length_append, pushNeighbours, List.length_map,
                    hperm.length_eq, List.length_cons, List.length_nil] at hlen hfuel ⊢
                  omega)
          have hsplit := fun c => @reachFrom_visit (IsOpen state visited) pos hopen
            (first :: others) (rest ++ pushNeighbours order pos) hposmem
            (by
              intro q _ hq
              rw [List.mem_append, hrest q hq, mem_pushNeighbours hperm]) c
          have hS' : ∀ c, c ∈ S ↔ ReachFrom (fun x => IsOpen state visited x ∧ x ≠ pos)
              (rest ++ pushNeighbours order pos) c := by
            intro c
            rw [hS c]
            constructor
            · rintro ⟨q, hq, hc⟩
              exact ⟨q, hq, hc.mono fun x hx => (isOpen_vset hv x).mp hx⟩
            · rintro ⟨q, hq, hc⟩
              exact ⟨q, hq, hc.mono fun x hx => (isOpen_vset hv x).mpr hx⟩
          have hnot : pos ∉ S := by
            intro hmem
            obtain ⟨q, _, hc⟩ := (hS' _).mp hmem
            exact hc.target.2 rfl
          refine ⟨insert pos S, final, ?_, ?_, hwf, ?_⟩
          · rw [hrun, Finset.card_insert_of_not_mem hnot]
            push_cast
            rw [add_assoc, add_comm 1]
          · intro c
            rw [Finset.mem_insert, hsplit c, hS' c]
          · intro c
            rw [hfin c, vget_vset hv c, Finset.mem_insert]
            by_cases hc : c = pos
            · simp [hc]
            · simp only [hc, if_false, false_or]
        · rw [hskip hopen]
          obtain ⟨S, final, hrun, hS, hwf, hfin⟩ := ih rest visited area hw
            (by simp only [List.length_cons] at hlen hfuel ⊢
                omega)
          refine ⟨S, final, hrun, ?_, hwf, hfin⟩
          intro c
          rw [hS c]
          refine reachFrom_congr ?_ c
          intro q hq
          exact hrest q (fun h => hopen (h ▸ hq))
      exact key _ _ (getD_mem_of_lt hi first) (List.length_eraseIdx_add_one hi)
        (mem_eraseIdx_of_ne hi first)
        (floodLoopOrd_skip state pick order fuel first others visited area hw)
        (fun visited' h hv =>
          floodLoopOrd_visit state pick order fuel first others visited visited' area h hv)

theorem floodLoop_eq_floodLoopOrd (state : GameState) :
    ∀ (fuel : Nat) (queue : List Vector2i) (visited : Visited) (area : Int),
      floodLoop state fuel queue visited area =
        floodLoopOrd state (fun _ => 0) [0, 1, 2, 3] fuel queue visited area := by
  intro fuel
  induction fuel with
  | zero => intro queue visited area; rfl
  | succ fuel ih =>
    intro queue visited area
    cases queue with
    | nil => rfl
    | cons pos queue =>
      simp only [floodLoop, floodLoopOrd, Nat.zero_mod, List.getD_cons_zero,
        List.eraseIdx_cons_zero, ih]

/-- The loop of `floodFill` ends within `4 * unvisited + length queue + 1`
evaluations of its condition, whatever the visited matrix. -/
theorem floodLoop_ne_diverge (state : GameState) :
    ∀ (fuel : Nat) (queue : List Vector2i) (visited : Visited) (area : Int),
      4 * unvisitedCount state visited + queue.length < fuel →
      floodLoop state fuel queue visited area ≠ .diverge := by
  intro fuel
  induction fuel with
  | zero => intro _ _ _ h; omega
  | succ fuel ih =>
    intro queue visited area h
    cases queue with
    | nil => simp [floodLoop]
    | cons pos queue =>
      simp only [List.length_cons] at h
      cases hin : state.isInsideGrid pos with
      | false =>
        simp only [floodLoop, hin]
        exact ih _ _ _ (by omega)
      | true =>
        cases hv : vget visited pos with
        | none => simp [floodLoop, hin, hv]
        | some b =>
          cases b with
          | true =>
            simp only [floodLoop, hin, hv]
            exact ih _ _ _ (by omega)
          | false =>
            by_cases hcell : state.grid pos = 0
            · cases hs : vset visited pos with
              | none => simp [floodLoop, hin, hv, getGridCell_of_inside hin, hcell, hs]
              | some visited' =>
                have hcount := unvisitedCount_vset hin hv hs
                simp only [floodLoop, hin, hv, getGridCell_of_inside hin, hcell, hs]
                refine ih _ _ _ ?_
                simp only [List.length_append, pushNeighbours, List.length_map,
                  List.length_cons, List.length_nil]
                omega
            · simp only [floodLoop, hin, hv, getGridCell_of_inside hin]
              simp only [bne_iff_ne, ne_eq, hcell, not_false_eq_true, if_true]
              exact ih _ _ _ (by omega)

/-- Once the loop has ended, more fuel does not change its result. -/
theorem floodLoop_add_fuel (state : GameState) :
    ∀ (fuel : Nat) (queue : List Vector2i) (visited : Visited) (area : Int) (k : Nat),
      floodLoop state fuel queue visited area ≠ .diverge →
      floodLoop state (fuel + k) queue visited area =
        floodLoop state fuel queue visited area := by
  intro fuel
  induction fuel with
  | zero => intro _ _ _ _ h; exact absurd rfl h
  | succ fuel ih =>
    intro queue visited area k h
    rw [Nat.add_right_comm]
    cases queue with
    | nil => rfl
    | cons pos queue =>
      cases hin : state.isInsideGrid pos with
      | false =>
        simp only [floodLoop, hin] at h ⊢
        exact ih _ _ _ _ h
      | true =>
        cases hv : vget visited pos with
        | none => simp [floodLoop, hin, hv]
        | some b =>
          cases b with
          | true =>
            simp only [floodLoop, hin, hv] at h ⊢
            exact ih _ _ _ _ h
          | false =>
            by_cases hcell : state.grid pos = 0
            · cases hs : vset visited pos with
              | none => simp [floodLoop, hin, hv, getGridCell_of_inside hin, hcell, hs]
              | some visited' =>
                simp only [floodLoop, hin, hv, getGridCell_of_inside hin, hcell, hs] at h ⊢
                exact ih _ _ _ _ h
            · simp only [floodLoop, hin, hv, getGridCell_of_inside hin] at h ⊢
              simp only [bne_iff_ne, ne_eq, hcell, not_false_eq_true, if_true] at h ⊢
              exact ih _ _ _ _ h

theorem floodFuel_enough (state : GameState) (start_pos : Vector2i) (visited : Visited) :
    4 * unvisitedCount state visited + [start_pos].length < floodFuel state := by
  have := unvisitedCount_le state visited
  simp only [floodFuel, List.length_cons, List.length_nil]
  omega

theorem vget_newVisited {state : GameState} {p : Vector2i} (hp : state.isInsideGrid p = true) :
    vget (newVisited state) p = some false := by
  rw [inside_iff] at hp
  unfold vget newVisited
  rw [if_neg (by omega)]
  have hx : p.x.toNat < state.gridWidth.toNat := by omega
  have hy : p.y.toNat < state.gridHeight.toNat := by omega
  simp [List.getElem?_replicate, hx, hy]

theorem vget_newVisited_ne_true (state : GameState) (p : Vector2i) :
    vget (newVisited state) p ≠ some true := by
  intro h
  unfold vget at h
  split at h
  · exact absurd h (by simp)
  · split at h
    · exact absurd h (by simp)
    · rename_i row hrow
      have hr := List.eq_of_mem_replicate (List.getElem?_mem hrow)
      subst hr
      exact absurd (List.eq_of_mem_replicate (List.getElem?_mem h)) (by simp)

theorem isOpen_newVisited (state : GameState) (p : Vector2i) :
    IsOpen state (newVisited state) p ↔ Free state p :=
  ⟨fun h => h.1, fun h => ⟨h, vget_newVisited h.1⟩⟩

/-- Result of the order-generic flood fill on a fresh visited matrix. -/
theorem floodFillOrd_fresh (state : GameState) (pick : List Vector2i → Nat) (order : List Int)
    (hperm : order.Perm [0, 1, 2, 3]) (start_pos : Vector2i) :
    ∃ (S : Finset Vector2i) (final : Visited),
      floodFillOrd state pick order start_pos (newVisited state) = .ok ((S.card : Int), final) ∧
      (∀ c, c ∈ S ↔ Connected state start_pos c) ∧
      WellSized state final ∧
      ∀ c, vget final c = some true ↔ c ∈ S := by
  obtain ⟨S, final, hrun, hS, hwf, hfin⟩ :=
    floodLoopOrd_spec state pick order hperm (floodFuel state) [start_pos] (newVisited state) 0
      (wellSized_newVisited state) (floodFuel_enough state start_pos _)
  refine ⟨S, final, by simpa [floodFillOrd] using hrun, ?_, hwf, ?_⟩
  · intro c
    rw [hS c]
    constructor
    · rintro ⟨q, hq, hc⟩
      rw [List.mem_singleton] at hq
      subst hq
      exact hc.mono fun x hx => (isOpen_newVisited state x).mp hx
    · intro hc
      exact ⟨start_pos, List.mem_singleton.mpr rfl,
        hc.mono fun x hx => (isOpen_newVisited state x).mpr hx⟩
  · intro c
    rw [hfin c]
    constructor
    · rintro (h | h)
      · exact absurd h (vget_newVisited_ne_true state c)
      · exact h
    · exact fun h => Or.inr h

/-- Result of `floodFill` on a fresh visited matrix. -/
theorem floodFill_fresh (state : GameState) (start_pos : Vector2i) :
    ∃ (S : Finset Vector2i) (final : Visited),
      floodFill state start_pos (newVisited state) = .ok ((S.card : Int), final) ∧
      (∀ c, c ∈ S ↔ Connected state start_pos c) ∧
      WellSized state final ∧
      ∀ c, vget final c = some true ↔ c ∈ S := by
  have h := floodFillOrd_fresh state (fun _ => 0) [0, 1, 2, 3] (List.Perm.refl _) start_pos
  rwa [floodFillOrd, ← floodLoop_eq_floodLoopOrd] at h

/-! ## The validator and the selector -/

theorem is_valid_move_eq (bot : BotClient) (d : Direction) :
    is_valid_move bot d = .ok (decide (Legal bot d)) := by
  by_cases hin : bot.state.isInsideGrid (bot.my_player.position + getDirectionVector d) = true
  · by_cases hcell : bot.state.grid (bot.my_player.position + getDirectionVector d) = 0
    · simp [is_valid_move, Legal, Free, hin, getGridCell_of_inside hin, hcell]
    · simp [is_valid_move, Legal, Free, hin, getGridCell_of_inside hin, hcell]
  · simp [is_valid_move, Legal, Free, hin]

theorem candidateArea_eq (bot : BotClient) (d : Direction) :
    candidateArea bot d = .ok (recordedArea bot d) ∧ 0 ≤ recordedArea bot d := by
  obtain ⟨S, final, hrun, -, -, -⟩ :=
    floodFill_fresh bot.state (bot.my_player.position + getDirectionVector d)
  have h : candidateArea bot d = .ok (S.card : Int) := by
    simp only [candidateArea, hrun]
  refine ⟨?_, ?_⟩ <;> simp [recordedArea, h]

theorem floodFill_landing (bot : BotClient) (d : Direction) :
    ∃ final, floodFill bot.state (bot.my_player.position + getDirectionVector d)
      (newVisited bot.state) = .ok (recordedArea bot d, final) := by
  obtain ⟨S, final, hrun, -, -, -⟩ :=
    floodFill_fresh bot.state (bot.my_player.position + getDirectionVector d)
  refine ⟨final, ?_⟩
  simp only [recordedArea, candidateArea, hrun]

theorem movesLoop_eq (bot : BotClient) :
    ∀ (values : List Int) (moves : List (Direction × Int)),
      movesLoop bot values moves =
        .ok (moves ++ ((values.map getDirectionFromValue).filter
          fun d => decide (Legal bot d)).map fun d => (d, recordedArea bot d)) := by
  intro values
  induction values with
  | nil => intro moves; simp [movesLoop]
  | cons v rest ih =>
    intro moves
    obtain ⟨final, hfill⟩ := floodFill_landing bot (getDirectionFromValue v)
    by_cases hlegal : Legal bot (getDirectionFromValue v)
    · simp only [movesLoop, is_valid_move_eq, hlegal, decide_True, hfill, ih, List.map_cons,
        List.filter_cons_of_pos, List.append_assoc, List.singleton_append]
    · simp only [movesLoop, is_valid_move_eq, hlegal, decide_False, ih, List.map_cons]
      rw [List.filter_cons_of_neg (by simpa using hlegal)]

theorem le_maxArea : ∀ (moves : List (Direction × Int)) (m : Int), m ≤ maxArea moves m := by
  intro moves
  induction moves with
  | nil => intro m; exact le_refl m
  | cons mv rest ih =>
    intro m
    exact le_trans (le_max_left m mv.2) (ih (max m mv.2))

theorem mem_le_maxArea : ∀ (moves : List (Direction × Int)) (m : Int),
    ∀ mv ∈ moves, mv.2 ≤ maxArea moves m := by
  intro moves
  induction moves with
  | nil => intro m mv h; exact absurd h (List.not_mem_nil _)
  | cons x rest ih =>
    intro m mv h
    rcases List.mem_cons.mp h with rfl | h
    · exact le_trans (le_max_right m mv.2) (le_maxArea rest (max m mv.2))
    · exact ih (max m x.2) mv h

theorem maxArea_attained : ∀ (moves : List (Direction × Int)) (m : Int),
    maxArea moves m = m ∨ ∃ mv ∈ moves, mv.2 = maxArea moves m := by
  intro moves
  induction moves with
  | nil => intro m; exact Or.inl rfl
  | cons x rest ih =>
    intro m
    rcases ih (max m x.2) with h | ⟨mv, hmv, h⟩
    · rcases max_choice m x.2 with hm | hm
      · left
        show maxArea rest (max m x.2) = m
        rw [h, hm]
      · right
        refine ⟨x, List.mem_cons_self _ _, ?_⟩
        show x.2 = maxArea rest (max m x.2)
        rw [h, hm]
    · exact Or.inr ⟨mv, List.mem_cons_of_mem _ hmv, h⟩

/-- What the second loop of `decideMove` computes. -/
theorem bestLoop_eq : ∀ (moves : List (Direction × Int)) (m : Int) (b : List Direction),
    bestLoop moves m b =
      (maxArea moves m, (if maxArea moves m = m then b else []) ++
        (moves.filter fun mv => decide (mv.2 = maxArea moves m)).map Prod.fst) := by
  intro moves
  induction moves with
  | nil => intro m b; simp [bestLoop, maxArea]
  | cons mv rest ih =>
    intro m b
    have hstep : maxArea (mv :: rest) m = maxArea rest (max m mv.2) := rfl
    rcases lt_trichotomy m mv.2 with h1 | h2 | h3
    · have hrun : bestLoop (mv :: rest) m b = bestLoop rest mv.2 [mv.1] := by
        simp only [bestLoop]
        rw [if_pos h1]
      have hmax : max m mv.2 = mv.2 := max_eq_right (le_of_lt h1)
      have hge := le_maxArea rest mv.2
      rw [hrun, ih, hstep, hmax]
      have hne : maxArea rest mv.2 ≠ m := by omega
      rw [if_neg hne]
      by_cases htop : maxArea rest mv.2 = mv.2
      · simp [htop]
      · have htop' : ¬ mv.2 = maxArea rest mv.2 := fun h => htop h.symm
        simp [htop, htop']
    · subst h2
      have hrun : bestLoop (mv :: rest) mv.2 b = bestLoop rest mv.2 (b ++ [mv.1]) := by
        simp only [bestLoop]
        rw [if_neg (by omega), if_pos trivial]
      have hmax : max mv.2 mv.2 = mv.2 := max_self _
      rw [hrun, ih, hstep, hmax]
      by_cases htop : maxArea rest mv.2 = mv.2
      · rw [if_pos htop, if_pos htop]
        simp [htop]
      · have htop' : ¬ mv.2 = maxArea rest mv.2 := fun h => htop h.symm
        simp [htop, htop']
    · have hrun : bestLoop (mv :: rest) m b = bestLoop rest m b := by
        simp only [bestLoop]
        rw [if_neg (by omega), if_neg (by omega)]
      have hmax : max m mv.2 = m := max_eq_left (le_of_lt h3)
      have hge := le_maxArea rest m
      rw [hrun, ih, hstep, hmax]
      have htop' : ¬ mv.2 = maxArea rest m := by omega
      simp [htop']

theorem mem_legalDirs (bot : BotClient) (d : Direction) : d ∈ legalDirs bot ↔ Legal bot d := by
  cases d <;> simp [legalDirs, List.mem_filter]

theorem mem_bestDirs (bot : BotClient) (d : Direction) :
    d ∈ bestDirs bot ↔ Legal bot d ∧ recordedArea bot d = topArea bot := by
  simp [bestDirs, List.mem_filter, mem_legalDirs]

theorem recordedArea_le_topArea (bot : BotClient) (d : Direction) (h : Legal bot d) :
    recordedArea bot d ≤ topArea bot :=
  mem_le_maxArea _ (-1) (d, recordedArea bot d)
    (List.mem_map.mpr ⟨d, (mem_legalDirs bot d).mpr h, rfl⟩)

theorem bestDirs_ne_nil (bot : BotClient) (h : legalDirs bot ≠ []) : bestDirs bot ≠ [] := by
  obtain ⟨d0, hd0⟩ := List.exists_mem_of_ne_nil _ h
  have hge := recordedArea_le_topArea bot d0 ((mem_legalDirs bot d0).mp hd0)
  have hpos := (candidateArea_eq bot d0).2
  rcases maxArea_attained ((legalDirs bot).map fun d => (d, recordedArea bot d)) (-1) with
    htop | ⟨mv, hmv, htop⟩
  · have : topArea bot = -1 := htop
    omega
  · obtain ⟨d, hd, rfl⟩ := List.mem_map.mp hmv
    exact List.ne_nil_of_mem ((mem_bestDirs bot d).mpr ⟨(mem_legalDirs bot d).mp hd, htop⟩)

/-- What `decideMove` computes: the fatal exit when no direction is legal,
else the entry of the list of best directions at the drawn index. -/
theorem decideMove_eq (bot : BotClient) (rng : Nat) :
    decideMove bot rng =
      if legalDirs bot = [] then .exit 1
      else
        match (bestDirs bot)[rng % (bestDirs bot).length]? with
        | some d => .ok d
        | none => .fault := by
  have hvalues : ([0, 1, 2, 3] : List Int).map getDirectionFromValue =
      [Direction.up, Direction.down, Direction.left, Direction.right] := by decide
  have hmoves : movesLoop bot [0, 1, 2, 3] [] =
      .ok ((legalDirs bot).map fun d => (d, recordedArea bot d)) := by
    rw [movesLoop_eq, hvalues]
    rfl
  have hbest : (bestLoop ((legalDirs bot).map fun d => (d, recordedArea bot d)) (-1) []).2 =
      bestDirs bot := by
    rw [bestLoop_eq]
    simp only [ite_self, List.nil_append, List.filter_map, List.map_map]
    have hid : (Prod.fst ∘ fun d => (d, recordedArea bot d)) = (id : Direction → Direction) :=
      rfl
    rw [hid, List.map_id]
    rfl
  simp only [decideMove, hmoves, hbest, List.isEmpty_eq_true, List.map_eq_nil_iff]

theorem decideMove_exit_iff (bot : BotClient) (rng : Nat) :
    decideMove bot rng = .exit 1 ↔ legalDirs bot = [] := by
  rw [decideMove_eq]
  split_ifs with h
  · simp [h]
  · split <;> simp [h]

theorem decideMove_mem_bestDirs (bot : BotClient) (rng : Nat) (d : Direction)
    (h : decideMove bot rng = .ok d) : d ∈ bestDirs bot := by
  rw [decideMove_eq] at h
  split_ifs at h with hnil
  split at h
  · rename_i d' hd'
    simp only [Outcome.ok.injEq] at h
    subst h
    exact List.getElem?_mem hd'
  · exact absurd h (by simp)

theorem decideMove_ok_of_legal (bot : BotClient) (rng : Nat) (h : legalDirs bot ≠ []) :
    ∃ d, decideMove bot rng = .ok d := by
  have hlen : rng % (bestDirs bot).length < (bestDirs bot).length :=
    Nat.mod_lt _ (List.length_pos.mpr (bestDirs_ne_nil bot h))
  rw [decideMove_eq, if_neg h, List.getElem?_eq_getElem hlen]
  exact ⟨_, rfl⟩

theorem legalDirs_eq_nil_iff (bot : BotClient) :
    legalDirs bot = [] ↔ ∀ d, ¬ Legal bot d := by
  rw [List.eq_nil_iff_forall_not_mem]
  exact forall_congr' fun d => not_congr (mem_legalDirs bot d)

theorem findPlayer_of_no_match (name : String) :
    ∀ (players : List Player) (my_player : Player),
      (∀ p ∈ players, p.name ≠ name) → findPlayer name players my_player = my_player := by
  intro players
  induction players with
  | nil => intro my_player _; rfl
  | cons player rest ih =>
    intro my_player h
    have hne : player.name ≠ name := h player (List.mem_cons_self _ _)
    have hrest := ih my_player fun p hp => h p (List.mem_cons_of_mem _ hp)
    simp [findPlayer, hne, hrest]

/-! ## The claims -/

/-- C1: for every grid, agent position and direction, `is_valid_move` returns
true exactly when the cell at position + displacement is inside the grid and
holds the free marker 0; in every other case it returns false. -/
theorem is_valid_move_iff (bot : BotClient) (direction : Direction) :
    (is_valid_move bot direction = .ok true ↔
      (bot.state.isInsideGrid (bot.my_player.position + getDirectionVector direction) = true ∧
        bot.state.getGridCell (bot.my_player.position + getDirectionVector direction) =
          some 0)) ∧
    (is_valid_move bot direction = .ok true ∨ is_valid_move bot direction = .ok false) := by
  rw [is_valid_move_eq]
  constructor
  · simp only [Outcome.ok.injEq, decide_eq_true_eq, Legal, Free]
    constructor
    · rintro ⟨hin, hcell⟩
      exact ⟨hin, by rw [getGridCell_of_inside hin, hcell]⟩
    · rintro ⟨hin, hcell⟩
      rw [getGridCell_of_inside hin] at hcell
      exact ⟨hin, Option.some.inj hcell⟩
  · by_cases h : Legal bot direction
    · exact Or.inl (by simp [h])
    · exact Or.inr (by simp [h])

/-- C2: started on an in-bounds free cell with an all-unvisited matrix of the
size of the grid, `floodFill` returns the number of cells of the 4-connected
component of free cells that contains the start cell. -/
theorem floodFill_component_size (state : GameState) (c : Vector2i)
    (hin : state.isInsideGrid c = true) (hfree : state.getGridCell c = some 0) :
    ∃ component : Finset Vector2i,
      (∀ p, p ∈ component ↔ Connected state c p) ∧ c ∈ component ∧
      ∃ final, floodFill state c (newVisited state) = .ok ((component.card : Int), final) := by
  obtain ⟨S, final, hrun, hS, -, -⟩ := floodFill_fresh state c
  rw [getGridCell_of_inside hin] at hfree
  exact ⟨S, hS, (hS c).mpr (Conn.refl c ⟨hin, Option.some.inj hfree⟩), final, hrun⟩

/-- Instance of C2 on the empty 5x5 grid. -/
theorem floodFill_component_size_witness :
    ∃ component : Finset Vector2i,
      (∀ p, p ∈ component ↔ Connected emptyGrid5 ⟨2, 1⟩ p) ∧ (⟨2, 1⟩ : Vector2i) ∈ component ∧
      ∃ final, floodFill emptyGrid5 ⟨2, 1⟩ (newVisited emptyGrid5) =
        .ok ((component.card : Int), final) :=
  floodFill_component_size emptyGrid5 ⟨2, 1⟩ (by decide) (by decide)

/-- C3: whenever `decideMove` returns a direction, `is_valid_move` is true for
it on the same grid and position, whatever value the random source gave. -/
theorem decideMove_returns_valid (bot : BotClient) (rng : Nat) (d : Direction)
    (h : decideMove bot rng = .ok d) : is_valid_move bot d = .ok true := by
  have hbest := (mem_bestDirs bot d).mp (decideMove_mem_bestDirs bot rng d h)
  rw [is_valid_move_eq]
  simp [hbest.1]

/-- Instance of C3 in the corridor. -/
theorem decideMove_returns_valid_witness :
    decideMove corridorBot 5 = .ok Direction.right ∧
      is_valid_move corridorBot Direction.right = .ok true :=
  ⟨by decide, decideMove_returns_valid corridorBot 5 Direction.right (by decide)⟩

/-- C4: when some direction is legal, `decideMove` returns a direction whose
flood-fill area is at least the flood-fill area of every legal direction,
whatever value the random source gave. -/
theorem decideMove_maximal_area (bot : BotClient) (rng : Nat)
    (h : ∃ d0, is_valid_move bot d0 = .ok true) :
    ∃ d area, decideMove bot rng = .ok d ∧ candidateArea bot d = .ok area ∧
      ∀ d', is_valid_move bot d' = .ok true →
        ∃ area', candidateArea bot d' = .ok area' ∧ area' ≤ area := by
  obtain ⟨d0, hd0⟩ := h
  have hlegal0 : Legal bot d0 := by
    rw [is_valid_move_eq] at hd0
    simpa using hd0
  have hne : legalDirs bot ≠ [] := List.ne_nil_of_mem ((mem_legalDirs bot d0).mpr hlegal0)
  obtain ⟨d, hd⟩ := decideMove_ok_of_legal bot rng hne
  have hbest := (mem_bestDirs bot d).mp (decideMove_mem_bestDirs bot rng d hd)
  refine ⟨d, recordedArea bot d, hd, (candidateArea_eq bot d).1, ?_⟩
  intro d' hd'
  have hlegal' : Legal bot d' := by
    rw [is_valid_move_eq] at hd'
    simpa using hd'
  refine ⟨recordedArea bot d', (candidateArea_eq bot d').1, ?_⟩
  rw [hbest.2]
  exact recordedArea_le_topArea bot d' hlegal'

/-- Instance of C4 in the corridor. -/
theorem decideMove_maximal_area_witness :
    ∃ d area, decideMove corridorBot 0 = .ok d ∧ candidateArea corridorBot d = .ok area ∧
      ∀ d', is_valid_move corridorBot d' = .ok true →
        ∃ area', candidateArea corridorBot d' = .ok area' ∧ area' ≤ area :=
  decideMove_maximal_area corridorBot 0 ⟨Direction.left, by decide⟩

/-- C5: `decideMove` takes the fatal exit exactly when all four directions are
illegal, that is when each neighbouring cell is outside the grid or does not
hold the free marker; in every other case it returns a direction. -/
theorem decideMove_exit_iff_boxed_in (bot : BotClient) (rng : Nat) :
    (decideMove bot rng = .exit 1 ↔ ∀ d, is_valid_move bot d = .ok false) ∧
    ((∀ d, is_valid_move bot d = .ok false) ↔
      ∀ d, bot.state.isInsideGrid (bot.my_player.position + getDirectionVector d) = false ∨
        bot.state.getGridCell (bot.my_player.position + getDirectionVector d) ≠ some 0) ∧
    (decideMove bot rng = .exit 1 ∨ ∃ d, decideMove bot rng = .ok d) := by
  refine ⟨?_, ?_, ?_⟩
  · rw [decideMove_exit_iff, legalDirs_eq_nil_iff]
    refine forall_congr' fun d => ?_
    rw [is_valid_move_eq]
    simp
  · refine forall_congr' fun d => ?_
    rw [is_valid_move_eq]
    simp only [Outcome.ok.injEq, decide_eq_false_iff_not, Legal, Free]
    by_cases hin : bot.state.isInsideGrid (bot.my_player.position + getDirectionVector d) = true
    · simp [hin, getGridCell_of_inside hin]
    · simp [hin]
  · by_cases hnil : legalDirs bot = []
    · exact Or.inl ((decideMove_exit_iff bot rng).mpr hnil)
    · exact Or.inr (decideMove_ok_of_legal bot rng hnil)

/-- Counterexample to C6: the snapshot holds no player named like the agent,
and `receiveGameState` still succeeds, keeping the player held before. -/
theorem receiveGameState_no_match_succeeds :
    (∀ p ∈ strangerSnapshot.players, p.name ≠ centreBot.name) ∧
    receiveGameState centreBot strangerSnapshot =
      .ok { name := "zeid", state := strangerSnapshot,
            my_player := { name := "zeid", position := ⟨2, 2⟩ } } :=
  ⟨by decide, rfl⟩

/-- C6, amended: when the snapshot holds no player named like the agent,
`receiveGameState` signals no error; it replaces the game state by the
snapshot and keeps the player, hence the position, held before the call. -/
theorem receiveGameState_no_match (bot : BotClient) (snapshot : GameState)
    (h : ∀ p ∈ snapshot.players, p.name ≠ bot.name) :
    receiveGameState bot snapshot =
      .ok { name := bot.name, state := snapshot, my_player := bot.my_player } := by
  simp only [receiveGameState, findPlayer_of_no_match bot.name snapshot.players bot.my_player h]

/-- Instance of the amended C6. -/
theorem receiveGameState_no_match_witness :
    receiveGameState corridorBot strangerSnapshot =
      .ok { name := corridorBot.name, state := strangerSnapshot,
            my_player := corridorBot.my_player } :=
  receiveGameState_no_match corridorBot strangerSnapshot (by decide)

/-- C7: `floodFill` terminates for every grid, every start position and every
visited matrix: the loop has ended within `floodFuel` evaluations of its
condition, more fuel gives the same result, and on an all-unvisited matrix of
the size of the grid the loop ends on an empty queue with a result. -/
theorem floodFill_terminates (state : GameState) (start_pos : Vector2i) (visited : Visited) :
    floodFill state start_pos visited ≠ .diverge ∧
    (∀ k, floodLoop state (floodFuel state + k) [start_pos] visited 0 =
      floodFill state start_pos visited) ∧
    ∃ result, floodFill state start_pos (newVisited state) = .ok result := by
  have hne : floodLoop state (floodFuel state) [start_pos] visited 0 ≠ .diverge :=
    floodLoop_ne_diverge state _ _ _ _ (floodFuel_enough state start_pos visited)
  refine ⟨hne, fun k => floodLoop_add_fuel state _ _ _ _ k hne, ?_⟩
  obtain ⟨S, final, hrun, -, -, -⟩ := floodFill_fresh state start_pos
  exact ⟨_, hrun⟩

/-- C8: the area does not depend on the traversal order: taking the frontier
positions out in any order (`pick`) and pushing the four neighbours in any
permutation of the direction order gives the same area as `floodFill`. -/
theorem floodFill_order_independent (state : GameState) (start_pos : Vector2i)
    (pick : List Vector2i → Nat) (order : List Int) (hperm : order.Perm [0, 1, 2, 3]) :
    ∃ area final final',
      floodFill state start_pos (newVisited state) = .ok (area, final) ∧
      floodFillOrd state pick order start_pos (newVisited state) = .ok (area, final') := by
  obtain ⟨S, final, hrun, hS, -, -⟩ := floodFill_fresh state start_pos
  obtain ⟨S', final', hrun', hS', -, -⟩ := floodFillOrd_fresh state pick order hperm start_pos
  have hSS : S' = S := Finset.ext fun c => by rw [hS c, hS' c]
  rw [hSS] at hrun'
  exact ⟨_, final, final', hrun, hrun'⟩

/-- Instance of C8: last-in-first-out traversal with the directions pushed in
the order right, down, up, left. -/
theorem floodFill_order_independent_witness :
    ([3, 1, 0, 2] : List Int).Perm [0, 1, 2, 3] ∧
    ∃ area final final',
      floodFill corridorGrid ⟨2, 0⟩ (newVisited corridorGrid) = .ok (area, final) ∧
      floodFillOrd corridorGrid (fun queue => queue.length - 1) [3, 1, 0, 2] ⟨2, 0⟩
        (newVisited corridorGrid) = .ok (area, final') :=
  ⟨by decide,
    floodFill_order_independent corridorGrid ⟨2, 0⟩ (fun queue => queue.length - 1)
      [3, 1, 0, 2] (by decide)⟩

/-- Counterexample to C9: on the 5x5 grid where all 25 cells hold the free
marker, the agent's own cell (2,2) included, the flood fill from the landing
cell of `up` returns no area of 24: the agent's cell is counted too. -/
theorem scenarioA_area_not_24 :
    (∀ p, centreBot.state.grid p = 0) ∧
    ¬ ∃ final, floodFill centreBot.state
      (centreBot.my_player.position + getDirectionVector Direction.up)
      (newVisited centreBot.state) = .ok (24, final) := by
  have h : floodFill centreBot.state
      (centreBot.my_player.position + getDirectionVector Direction.up)
      (newVisited centreBot.state) = .ok (25, List.replicate 5 (List.replicate 5 true)) := by
    decide
  refine ⟨fun _ => rfl, ?_⟩
  rintro ⟨final, hfinal⟩
  rw [h] at hfinal
  simp at hfinal

/-- C9, amended: on the 5x5 grid that is empty apart from the agent's own
cell (the centre (2,2) is blocked, the 24 other cells hold the free marker),
all four directions are legal, `floodFill` returns 24 for each of the four
landing cells, and `best_moves` holds all four directions, so each of them is
returned for some draw. -/
theorem scenarioA_blocked_centre :
    (∀ p, blockedCentreBot.state.isInsideGrid p = true →
      (blockedCentreBot.state.getGridCell p = some 0 ↔
        p ≠ blockedCentreBot.my_player.position)) ∧
    (∀ d, is_valid_move blockedCentreBot d = .ok true) ∧
    (∀ d, floodFill blockedCentreBot.state
      (blockedCentreBot.my_player.position + getDirectionVector d)
      (newVisited blockedCentreBot.state) = .ok (24, blockedCentreVisited)) ∧
    movesLoop blockedCentreBot [0, 1, 2, 3] [] =
      .ok [(Direction.up, 24), (Direction.down, 24), (Direction.left, 24),
        (Direction.right, 24)] ∧
    (bestLoop [(Direction.up, 24), (Direction.down, 24), (Direction.left, 24),
        (Direction.right, 24)] (-1) []).2 =
      [Direction.up, Direction.down, Direction.left, Direction.right] ∧
    (∀ d, ∃ rng, decideMove blockedCentreBot rng = .ok d) := by
  refine ⟨?_, ?_, ?_, ?_, ?_, ?_⟩
  · intro p hp
    rw [getGridCell_of_inside hp]
    show some (if p = (⟨2, 2⟩ : Vector2i) then 1 else 0) = some 0 ↔ p ≠ ⟨2, 2⟩
    by_cases h : p = (⟨2, 2⟩ : Vector2i)
    · simp [h]
    · simp [h]
  · intro d
    cases d <;> decide
  · intro d
    cases d <;> decide
  · decide
  · decide
  · intro d
    cases d
    · exact ⟨0, by decide⟩
    · exact ⟨1, by decide⟩
    · exact ⟨2, by decide⟩
    · exact ⟨3, by decide⟩

/-- C10: when one legal direction has a flood-fill area strictly greater than
that of every other legal direction, `decideMove` returns it for every value
of the random source. -/
theorem decideMove_unique_maximum (bot : BotClient) (d : Direction) (area : Int)
    (hlegal : is_valid_move bot d = .ok true) (harea : candidateArea bot d = .ok area)
    (hmax : ∀ d', d' ≠ d → is_valid_move bot d' = .ok true →
      ∃ area', candidateArea bot d' = .ok area' ∧ area' < area) :
    ∀ rng, decideMove bot rng = .ok d := by
  intro rng
  have hl : Legal bot d := by
    rw [is_valid_move_eq] at hlegal
    simpa using hlegal
  have hne : legalDirs bot ≠ [] := List.ne_nil_of_mem ((mem_legalDirs bot d).mpr hl)
  obtain ⟨d1, hd1⟩ := decideMove_ok_of_legal bot rng hne
  have hbest := (mem_bestDirs bot d1).mp (decideMove_mem_bestDirs bot rng d1 hd1)
  by_cases hdd : d1 = d
  · rw [← hdd]
    exact hd1
  · exfalso
    have hv1 : is_valid_move bot d1 = .ok true := by
      rw [is_valid_move_eq]
      simp [hbest.1]
    obtain ⟨area1, harea1, hlt⟩ := hmax d1 hdd hv1
    have htop := recordedArea_le_topArea bot d hl
    rw [(candidateArea_eq bot d).1] at harea
    rw [(candidateArea_eq bot d1).1] at harea1
    simp only [Outcome.ok.injEq] at harea harea1
    omega

/-- Instance of C10 in the corridor: two free cells to the right, one to the
left. -/
theorem decideMove_unique_maximum_witness :
    is_valid_move corridorBot Direction.right = .ok true ∧
    candidateArea corridorBot Direction.right = .ok 2 ∧
    candidateArea corridorBot Direction.left = .ok 1 ∧
    decideMove corridorBot 0 = .ok Direction.right ∧
    decideMove corridorBot 1 = .ok Direction.right :=
  have h := decideMove_unique_maximum corridorBot Direction.right 2 (by decide) (by decide)
    (by
      intro d' hne hv
      cases d' with
      | up => exact absurd hv (by decide)
      | down => exact absurd hv (by decide)
      | left => exact ⟨1, by decide, by decide⟩
      | right => exact absurd rfl hne)
  ⟨by decide, by decide, by decide, h 0, h 1⟩

/-! ## Tie-breaking -/

theorem movesLoop_canonical (bot : BotClient) :
    movesLoop bot [0, 1, 2, 3] [] =
      .ok ((legalDirs bot).map fun d => (d, recordedArea bot d)) := by
  have hvalues : ([0, 1, 2, 3] : List Int).map getDirectionFromValue =
      [Direction.up, Direction.down, Direction.left, Direction.right] := by decide
  rw [movesLoop_eq, hvalues]
  rfl

theorem bestLoop_canonical (bot : BotClient) :
    (bestLoop ((legalDirs bot).map fun d => (d, recordedArea bot d)) (-1) []).2 =
      bestDirs bot := by
  rw [bestLoop_eq]
  simp only [ite_self, List.nil_append, List.filter_map, List.map_map]
  have hid : (Prod.fst ∘ fun d => (d, recordedArea bot d)) = (id : Direction → Direction) :=
    rfl
  rw [hid, List.map_id]
  rfl

theorem nodup_bestDirs (bot : BotClient) : (bestDirs bot).Nodup := by
  refine List.Nodup.filter _ (List.Nodup.filter _ ?_)
  decide

theorem legal_iff_valid (bot : BotClient) (d : Direction) :
    Legal bot d ↔ is_valid_move bot d = .ok true := by
  rw [is_valid_move_eq]
  simp

/-- Membership in the list of best directions, in terms of the operations of
the client. -/
theorem mem_bestDirs_iff_tied (bot : BotClient) (d : Direction) :
    d ∈ bestDirs bot ↔
      (is_valid_move bot d = .ok true ∧
        ∃ area, candidateArea bot d = .ok area ∧
          ∀ d', is_valid_move bot d' = .ok true →
            ∃ area', candidateArea bot d' = .ok area' ∧ area' ≤ area) := by
  rw [mem_bestDirs, legal_iff_valid]
  constructor
  · rintro ⟨hv, htop⟩
    refine ⟨hv, recordedArea bot d, (candidateArea_eq bot d).1, ?_⟩
    intro d' hv'
    refine ⟨recordedArea bot d', (candidateArea_eq bot d').1, ?_⟩
    rw [htop]
    exact recordedArea_le_topArea bot d' ((legal_iff_valid bot d').mpr hv')
  · rintro ⟨hv, area, harea, hmax⟩
    refine ⟨hv, ?_⟩
    rw [(candidateArea_eq bot d).1] at harea
    simp only [Outcome.ok.injEq] at harea
    have hl := (legal_iff_valid bot d).mpr hv
    have hle := recordedArea_le_topArea bot d hl
    have hne : legalDirs bot ≠ [] := List.ne_nil_of_mem ((mem_legalDirs bot d).mpr hl)
    obtain ⟨d1, hd1⟩ := List.exists_mem_of_ne_nil _ (bestDirs_ne_nil bot hne)
    obtain ⟨hl1, htop1⟩ := (mem_bestDirs bot d1).mp hd1
    obtain ⟨area1, harea1, hle1⟩ := hmax d1 ((legal_iff_valid bot d1).mp hl1)
    rw [(candidateArea_eq bot d1).1] at harea1
    simp only [Outcome.ok.injEq] at harea1
    omega

/-- C11: with a legal move, the list `best_moves` from which `decideMove`
draws holds, without duplicates, exactly the legal directions whose flood-fill
area is maximal; the drawn index lies in `0 .. size - 1`, the direction at that
index is the one returned, and every tied direction sits at exactly one
index. -/
theorem tie_break_covers_tied_directions (bot : BotClient)
    (h : ∃ d0, is_valid_move bot d0 = .ok true) :
    ∃ moves best_moves,
      movesLoop bot [0, 1, 2, 3] [] = .ok moves ∧
      (bestLoop moves (-1) []).2 = best_moves ∧
      best_moves.Nodup ∧ best_moves ≠ [] ∧
      (∀ d, d ∈ best_moves ↔
        (is_valid_move bot d = .ok true ∧
          ∃ area, candidateArea bot d = .ok area ∧
            ∀ d', is_valid_move bot d' = .ok true →
              ∃ area', candidateArea bot d' = .ok area' ∧ area' ≤ area)) ∧
      (∀ rng, rng % best_moves.length < best_moves.length ∧
        ∃ d, best_moves[rng % best_moves.length]? = some d ∧ decideMove bot rng = .ok d) ∧
      (∀ d, d ∈ best_moves → ∃! i, i < best_moves.length ∧ best_moves[i]? = some d) := by
  obtain ⟨d0, hd0⟩ := h
  have hne : legalDirs bot ≠ [] :=
    List.ne_nil_of_mem ((mem_legalDirs bot d0).mpr ((legal_iff_valid bot d0).mpr hd0))
  have hbest := bestDirs_ne_nil bot hne
  refine ⟨_, bestDirs bot, movesLoop_canonical bot, bestLoop_canonical bot, nodup_bestDirs bot,
    hbest, mem_bestDirs_iff_tied bot, ?_, ?_⟩
  · intro rng
    have hlen : rng % (bestDirs bot).length < (bestDirs bot).length :=
      Nat.mod_lt _ (List.length_pos.mpr hbest)
    refine ⟨hlen, (bestDirs bot)[rng % (bestDirs bot).length], List.getElem?_eq_getElem hlen, ?_⟩
    rw [decideMove_eq, if_neg hne, List.getElem?_eq_getElem hlen]
  · intro d hd
    obtain ⟨i, hi⟩ := List.mem_iff_getElem?.mp hd
    have hilt : i < (bestDirs bot).length := (List.getElem?_eq_some.mp hi).1
    refine ⟨i, ⟨hilt, hi⟩, ?_⟩
    rintro j ⟨hjlt, hj⟩
    exact (List.getElem?_inj hilt (nodup_bestDirs bot) (hi.trans hj.symm)).symm

/-- Instance of C11 on the empty 5x5 grid, where all four directions tie. -/
theorem tie_break_covers_tied_directions_witness :
    ∃ moves best_moves,
      movesLoop centreBot [0, 1, 2, 3] [] = .ok moves ∧
      (bestLoop moves (-1) []).2 = best_moves ∧
      best_moves.Nodup ∧ best_moves ≠ [] ∧
      (∀ d, d ∈ best_moves ↔
        (is_valid_move centreBot d = .ok true ∧
          ∃ area, candidateArea centreBot d = .ok area ∧
            ∀ d', is_valid_move centreBot d' = .ok true →
              ∃ area', candidateArea centreBot d' = .ok area' ∧ area' ≤ area)) ∧
      (∀ rng, rng % best_moves.length < best_moves.length ∧
        ∃ d, best_moves[rng % best_moves.length]? = some d ∧
          decideMove centreBot rng = .ok d) ∧
      (∀ d, d ∈ best_moves → ∃! i, i < best_moves.length ∧ best_moves[i]? = some d) :=
  tie_break_covers_tied_directions centreBot ⟨Direction.up, by decide⟩

/-! ## Counting the visited entries -/

theorem count_set_true (row : List Bool) (y : Nat) (h : row[y]? = some false) :
    (row.set y true).count true = row.count true + 1 := by
  obtain ⟨hy, hval⟩ := List.getElem?_eq_some.mp h
  rw [List.count_set true true row y hy, hval]
  simp

theorem sum_map_count_set : ∀ (visited : Visited) (x : Nat) (row row' : List Bool),
    visited[x]? = some row → row'.count true = row.count true + 1 →
    ((visited.set x row').map (List.count true)).sum =
      (visited.map (List.count true)).sum + 1 := by
  intro visited
  induction visited with
  | nil => intro x row row' h _; exact absurd h (by simp)
  | cons r rest ih =>
    intro x row row' h hcount
    cases x with
    | zero =>
      simp only [List.getElem?_cons_zero, Option.some.injEq] at h
      subst h
      simp only [List.set_cons_zero, List.map_cons, List.sum_cons, hcount]
      omega
    | succ x =>
      simp only [List.getElem?_cons_succ] at h
      simp only [List.set_cons_succ, List.map_cons, List.sum_cons, ih x row row' h hcount]
      omega

theorem trueCount_vset {visited visited' : Visited} {p : Vector2i}
    (hv : vget visited p = some false) (h : vset visited p = some visited') :
    trueCount visited' = trueCount visited + 1 := by
  unfold vget at hv
  unfold vset at h
  split at hv
  · exact absurd hv (by simp)
  · rename_i hneg
    rw [if_neg hneg] at h
    split at hv
    · exact absurd hv (by simp)
    · rename_i row hrow
      rw [hrow] at h
      simp only at h
      split at h
      · simp only [Option.some.injEq] at h
        subst h
        exact sum_map_count_set visited _ row _ hrow (count_set_true row _ hv)
      · exact absurd h (by simp)

theorem trueCount_newVisited (state : GameState) : trueCount (newVisited state) = 0 := by
  have hrow : List.count true (List.replicate state.gridHeight.toNat false) = 0 :=
    List.count_eq_zero.mpr fun h => absurd (List.eq_of_mem_replicate h) (by simp)
  simp [trueCount, newVisited, hrow]

/-- The area only grows, and it grows by the number of entries that the loop
sets in the visited matrix; this holds for every visited matrix. -/
theorem floodLoop_count (state : GameState) :
    ∀ (fuel : Nat) (queue : List Vector2i) (visited : Visited) (area area' : Int)
      (final : Visited),
      floodLoop state fuel queue visited area = .ok (area', final) →
      ∃ n : Nat, area' = area + n ∧ trueCount final = trueCount visited + n := by
  intro fuel
  induction fuel with
  | zero => intro _ _ _ _ _ h; exact absurd h (by simp [floodLoop])
  | succ fuel ih =>
    intro queue visited area area' final h
    cases queue with
    | nil =>
      simp only [floodLoop, Outcome.ok.injEq, Prod.mk.injEq] at h
      exact ⟨0, by simp [h.1], by simp [h.2]⟩
    | cons pos queue =>
      cases hin : state.isInsideGrid pos with
      | false =>
        simp only [floodLoop, hin] at h
        exact ih _ _ _ _ _ h
      | true =>
        cases hv : vget visited pos with
        | none => simp [floodLoop, hin, hv] at h
        | some b =>
          cases b with
          | true =>
            simp only [floodLoop, hin, hv] at h
            exact ih _ _ _ _ _ h
          | false =>
            by_cases hcell : state.grid pos = 0
            · cases hs : vset visited pos with
              | none => simp [floodLoop, hin, hv, getGridCell_of_inside hin, hcell, hs] at h
              | some visited' =>
                simp only [floodLoop, hin, hv, getGridCell_of_inside hin, hcell, hs] at h
                obtain ⟨n, hn1, hn2⟩ := ih _ _ _ _ _ h
                refine ⟨n + 1, ?_, ?_⟩
                · rw [hn1]
                  push_cast
                  ring
                · rw [hn2, trueCount_vset hv hs]
                  ring
            · simp only [floodLoop, hin, hv, getGridCell_of_inside hin] at h
              simp only [bne_iff_ne, ne_eq, hcell, not_false_eq_true, if_true] at h
              exact ih _ _ _ _ _ h

/-- C12: two calls of `floodFill` on the same grid and start cell, each on an
all-unvisited matrix, both return a value, and the two areas are equal. -/
theorem floodFill_idempotent (state : GameState) (start_pos : Vector2i) :
    ∃ area final,
      floodFill state start_pos (newVisited state) = .ok (area, final) ∧
      ∀ area' final', floodFill state start_pos (newVisited state) = .ok (area', final') →
        area' = area := by
  obtain ⟨S, final, hrun, -, -, -⟩ := floodFill_fresh state start_pos
  refine ⟨_, final, hrun, ?_⟩
  intro area' final' h
  rw [hrun] at h
  simp only [Outcome.ok.injEq, Prod.mk.injEq] at h
  exact h.1.symm

/-- C13: from an in-bounds free start cell and an all-unvisited matrix,
`floodFill` returns an area of at least 1; from every start cell it returns a
non-negative area, and whatever the visited matrix a returned area is never
negative. -/
theorem floodFill_area_lower_bounds (state : GameState) (c : Vector2i)
    (hin : state.isInsideGrid c = true) (hfree : state.getGridCell c = some 0) :
    (∃ area final, floodFill state c (newVisited state) = .ok (area, final) ∧ 1 ≤ area) ∧
    (∀ start_pos, ∃ area final,
      floodFill state start_pos (newVisited state) = .ok (area, final) ∧ 0 ≤ area) ∧
    (∀ start_pos visited area final,
      floodFill state start_pos visited = .ok (area, final) → 0 ≤ area) := by
  refine ⟨?_, ?_, ?_⟩
  · obtain ⟨S, final, hrun, hS, -, -⟩ := floodFill_fresh state c
    rw [getGridCell_of_inside hin] at hfree
    have hmem : c ∈ S := (hS c).mpr (Conn.refl c ⟨hin, Option.some.inj hfree⟩)
    have hpos : 0 < S.card := Finset.card_pos.mpr ⟨c, hmem⟩
    exact ⟨_, final, hrun, by exact_mod_cast hpos⟩
  · intro start_pos
    obtain ⟨S, final, hrun, -, -, -⟩ := floodFill_fresh state start_pos
    exact ⟨_, final, hrun, Int.natCast_nonneg _⟩
  · intro start_pos visited area final h
    obtain ⟨n, hn, -⟩ := floodLoop_count state _ _ _ _ _ _ h
    rw [hn]
    omega

/-- Instance of C13 in the corridor. -/
theorem floodFill_area_lower_bounds_witness :
    (∃ area final,
      floodFill corridorGrid ⟨2, 0⟩ (newVisited corridorGrid) = .ok (area, final) ∧ 1 ≤ area) ∧
    (∀ start_pos, ∃ area final,
      floodFill corridorGrid start_pos (newVisited corridorGrid) = .ok (area, final) ∧
        0 ≤ area) ∧
    (∀ start_pos visited area final,
      floodFill corridorGrid start_pos visited = .ok (area, final) → 0 ≤ area) :=
  floodFill_area_lower_bounds corridorGrid ⟨2, 0⟩ (by decide) (by decide)

/-! ## Filtering before pushing -/

theorem worthPushing_iff (state : GameState) (visited : Visited) (q : Vector2i) :
    worthPushing state visited q = true ↔ IsOpen state visited q := by
  unfold worthPushing IsOpen Free
  by_cases hin : state.isInsideGrid q = true
  · simp [hin, getGridCell_of_inside hin]
  · simp [hin]

theorem floodLoopPre_skip (state : GameState) (fuel : Nat) (pos : Vector2i)
    (queue : List Vector2i) (visited : Visited) (area : Int) (hw : WellSized state visited)
    (h : ¬ IsOpen state visited pos) :
    floodLoopPre state (fuel + 1) (pos :: queue) visited area =
      floodLoopPre state fuel queue visited area := by
  cases hin : state.isInsideGrid pos with
  | false => simp only [floodLoopPre, hin]; rfl
  | true =>
    obtain ⟨b, hb⟩ := vget_isSome_of_wellSized hw hin
    cases b with
    | true => simp only [floodLoopPre, hin, hb]; rfl
    | false =>
      have hcell : state.grid pos ≠ 0 := fun hc => h ⟨⟨hin, hc⟩, hb⟩
      simp only [floodLoopPre, hin, hb, getGridCell_of_inside hin]
      simp only [bne_iff_ne, ne_eq, hcell, not_false_eq_true, if_true]
      rfl

theorem floodLoopPre_visit (state : GameState) (fuel : Nat) (pos : Vector2i)
    (queue : List Vector2i) (visited visited' : Visited) (area : Int)
    (h : IsOpen state visited pos) (hv : vset visited pos = some visited') :
    floodLoopPre state (fuel + 1) (pos :: queue) visited area =
      floodLoopPre state fuel
        (queue ++ (pushNeighbours [0, 1, 2, 3] pos).filter (worthPushing state visited'))
        visited' (area + 1) := by
  obtain ⟨⟨hin, hfree⟩, hb⟩ := h
  simp only [floodLoopPre, hin, hb, getGridCell_of_inside hin, hv, hfree]
  rfl

/-- Result of the pre-filtering loop from any well-sized state: the area grows
by the number of cells reachable from the frontier through open cells. -/
theorem floodLoopPre_spec (state : GameState) :
    ∀ (fuel : Nat) (queue : List Vector2i) (visited : Visited) (area : Int),
      WellSized state visited →
      4 * unvisitedCount state visited + queue.length < fuel →
      ∃ (S : Finset Vector2i) (final : Visited),
        floodLoopPre state fuel queue visited area = .ok (area + S.card, final) ∧
        ∀ c, c ∈ S ↔ ReachFrom (IsOpen state visited) queue c := by
  intro fuel
  induction fuel with
  | zero => intro _ _ _ _ h; omega
  | succ fuel ih =>
    intro queue visited area hw hfuel
    cases queue with
    | nil =>
      refine ⟨∅, visited, by simp [floodLoopPre], ?_⟩
      intro c
      simp [ReachFrom]
    | cons pos queue =>
      simp only [List.length_cons] at hfuel
      by_cases hopen : IsOpen state visited pos
      · obtain ⟨visited', hv⟩ := vset_isSome_of_vget hopen.2
        have hcount := unvisitedCount_vset hopen.1.1 hopen.2 hv
        have hpushed : ((pushNeighbours [0, 1, 2, 3] pos).filter
            (worthPushing state visited')).length ≤ 4 :=
          le_trans (List.length_filter_le _ _) (by simp [pushNeighbours])
        rw [floodLoopPre_visit state fuel pos queue visited visited' area hopen hv]
        obtain ⟨S, final, hrun, hS⟩ :=
          ih (queue ++ (pushNeighbours [0, 1, 2, 3] pos).filter (worthPushing state visited'))
            visited' (area + 1) (wellSized_vset hw hv)
            (by simp only [List.length_append]
                omega)
        have hsplit := fun c => @reachFrom_visit (IsOpen state visited) pos hopen
          (pos :: queue)
          (queue ++ (pushNeighbours [0, 1, 2, 3] pos).filter (worthPushing state visited'))
          (List.mem_cons_self _ _)
          (by
            intro q hq hne
            have hq' : worthPushing state visited' q = true :=
              (worthPushing_iff state visited' q).mpr ((isOpen_vset hv q).mpr ⟨hq, hne⟩)
            simp only [List.mem_append, List.mem_filter, hq', and_true, List.mem_cons, hne,
              false_or, mem_pushNeighbours (List.Perm.refl _)]) c
        have hS' : ∀ c, c ∈ S ↔ ReachFrom (fun x => IsOpen state visited x ∧ x ≠ pos)
            (queue ++ (pushNeighbours [0, 1, 2, 3] pos).filter (worthPushing state visited'))
            c := by
          intro c
          rw [hS c]
          constructor
          · rintro ⟨q, hq, hc⟩
            exact ⟨q, hq, hc.mono fun x hx => (isOpen_vset hv x).mp hx⟩
          · rintro ⟨q, hq, hc⟩
            exact ⟨q, hq, hc.mono fun x hx => (isOpen_vset hv x).mpr hx⟩
        have hnot : pos ∉ S := by
          intro hmem
          obtain ⟨q, _, hc⟩ := (hS' _).mp hmem
          exact hc.target.2 rfl
        refine ⟨insert pos S, final, ?_, ?_⟩
        · rw [hrun, Finset.card_insert_of_not_mem hnot]
          push_cast
          rw [add_assoc, add_comm 1]
        · intro c
          rw [Finset.mem_insert, hsplit c, hS' c]
      · rw [floodLoopPre_skip state fuel pos queue visited area hw hopen]
        obtain ⟨S, final, hrun, hS⟩ := ih queue visited area hw (by omega)
        refine ⟨S, final, hrun, ?_⟩
        intro c
        rw [hS c]
        refine reachFrom_congr ?_ c
        intro q hq
        have hne : q ≠ pos := fun h => hopen (h ▸ hq)
        simp [hne]

/-- C14: the variant of the flood fill that pushes a neighbour only when it is
in bounds, free and not yet visited returns, for every grid and every start
cell, the same area as `floodFill`, which pushes all four neighbours. -/
theorem floodFill_prefilter_same_area (state : GameState) (start_pos : Vector2i) :
    ∃ area final final',
      floodFill state start_pos (newVisited state) = .ok (area, final) ∧
      floodFillPre state start_pos (newVisited state) = .ok (area, final') := by
  obtain ⟨S', final', hrun', hS'⟩ :=
    floodLoopPre_spec state (floodFuel state) [start_pos] (newVisited state) 0
      (wellSized_newVisited state) (floodFuel_enough state start_pos _)
  obtain ⟨S, final, hrun, hS, -, -⟩ :=
    floodLoopOrd_spec state (fun _ => 0) [0, 1, 2, 3] (List.Perm.refl _) (floodFuel state)
      [start_pos] (newVisited state) 0 (wellSized_newVisited state)
      (floodFuel_enough state start_pos _)
  rw [← floodLoop_eq_floodLoopOrd] at hrun
  have hSS : S' = S := Finset.ext fun c => by rw [hS c, hS' c]
  rw [hSS] at hrun'
  exact ⟨_, final, final', hrun, hrun'⟩

/-! ## Absence of faults, fresh matrices, frame -/

/-- Result of `floodFill` on any well-sized visited matrix. -/
theorem floodFill_wellSized (state : GameState) (start_pos : Vector2i) (visited : Visited)
    (hw : WellSized state visited) :
    ∃ (S : Finset Vector2i) (final : Visited),
      floodFill state start_pos visited = .ok ((S.card : Int), final) ∧
      (∀ c, c ∈ S ↔ ReachFrom (IsOpen state visited) [start_pos] c) ∧
      WellSized state final ∧
      ∀ c, vget final c = some true ↔ (vget visited c = some true ∨ c ∈ S) := by
  obtain ⟨S, final, hrun, hS, hwf, hfin⟩ :=
    floodLoopOrd_spec state (fun _ => 0) [0, 1, 2, 3] (List.Perm.refl _) (floodFuel state)
      [start_pos] visited 0 hw (floodFuel_enough state start_pos visited)
  rw [← floodLoop_eq_floodLoopOrd] at hrun
  exact ⟨S, final, by simpa [floodFill] using hrun, hS, hwf, hfin⟩

/-- C15: on a well-formed grid and a visited matrix of the size of the grid no
operation makes an out-of-range access (the outcome `fault`): `floodFill` and
`is_valid_move` return a value, `decideMove` exits or returns a direction,
and whenever `moves` is not empty `best_moves` is not empty and the drawn index
lies within it. -/
theorem no_out_of_range_access (bot : BotClient) (start_pos : Vector2i) (visited : Visited)
    (rng : Nat) (hw : WellSized bot.state visited) :
    (∃ result, floodFill bot.state start_pos visited = .ok result) ∧
    (∀ d, ∃ b, is_valid_move bot d = .ok b) ∧
    (decideMove bot rng = .exit 1 ∨ ∃ d, decideMove bot rng = .ok d) ∧
    ∃ moves, movesLoop bot [0, 1, 2, 3] [] = .ok moves ∧
      (moves ≠ [] →
        (bestLoop moves (-1) []).2 ≠ [] ∧
        rng % (bestLoop moves (-1) []).2.length < (bestLoop moves (-1) []).2.length) := by
  refine ⟨?_, ?_, ?_, ?_⟩
  · obtain ⟨S, final, hrun, -, -, -⟩ := floodFill_wellSized bot.state start_pos visited hw
    exact ⟨_, hrun⟩
  · intro d
    exact ⟨_, is_valid_move_eq bot d⟩
  · by_cases hnil : legalDirs bot = []
    · exact Or.inl ((decideMove_exit_iff bot rng).mpr hnil)
    · exact Or.inr (decideMove_ok_of_legal bot rng hnil)
  · refine ⟨_, movesLoop_canonical bot, ?_⟩
    intro hmoves
    have hne : legalDirs bot ≠ [] := fun h => hmoves (by rw [h]; rfl)
    rw [bestLoop_canonical]
    exact ⟨bestDirs_ne_nil bot hne,
      Nat.mod_lt _ (List.length_pos.mpr (bestDirs_ne_nil bot hne))⟩

/-- Instance of C15 in the corridor, on a matrix with one entry already set. -/
theorem no_out_of_range_access_witness :
    WellSized corridorBot.state [[false], [false], [true], [false]] ∧
    (∃ result, floodFill corridorBot.state ⟨3, 0⟩ [[false], [false], [true], [false]] =
      .ok result) ∧
    (∀ d, ∃ b, is_valid_move corridorBot d = .ok b) ∧
    (decideMove corridorBot 9 = .exit 1 ∨ ∃ d, decideMove corridorBot 9 = .ok d) ∧
    ∃ moves, movesLoop corridorBot [0, 1, 2, 3] [] = .ok moves ∧
      (moves ≠ [] →
        (bestLoop moves (-1) []).2 ≠ [] ∧
        9 % (bestLoop moves (-1) []).2.length < (bestLoop moves (-1) []).2.length) :=
  ⟨by decide,
    no_out_of_range_access corridorBot ⟨3, 0⟩ [[false], [false], [true], [false]] 9
      (by decide)⟩

theorem cardinal_comm {p q : Vector2i} (h : Cardinal p q) : Cardinal q p := by
  unfold Cardinal at h ⊢
  omega

theorem Conn.snoc {P : Vector2i → Prop} {a b c : Vector2i} (h : Conn P a b)
    (hbc : Cardinal b c) (hc : P c) : Conn P a c := by
  induction h with
  | refl a ha => exact Conn.step a c c ha hbc (Conn.refl c hc)
  | step a x b ha hax _ ih => exact Conn.step a x c ha hax (ih hbc)

theorem Conn.reverse {P : Vector2i → Prop} {a c : Vector2i} (h : Conn P a c) :
    Conn P c a := by
  induction h with
  | refl a ha => exact Conn.refl a ha
  | step a b c ha hab _ ih => exact ih.snoc (cardinal_comm hab) ha

theorem Conn.trans {P : Vector2i → Prop} {a b c : Vector2i} (h : Conn P a b)
    (hbc : Conn P b c) : Conn P a c := by
  induction h with
  | refl a _ => exact hbc
  | step a x b ha hax _ ih => exact Conn.step a x c ha hax (ih hbc)

/-- Landing cells in the same component of free cells are recorded with the
same area. -/
theorem recordedArea_eq_of_connected (bot : BotClient) (d d' : Direction)
    (h : Connected bot.state (bot.my_player.position + getDirectionVector d)
      (bot.my_player.position + getDirectionVector d')) :
    recordedArea bot d = recordedArea bot d' := by
  obtain ⟨S, final, hrun, hS, -, -⟩ :=
    floodFill_fresh bot.state (bot.my_player.position + getDirectionVector d)
  obtain ⟨S', final', hrun', hS', -, -⟩ :=
    floodFill_fresh bot.state (bot.my_player.position + getDirectionVector d')
  have hSS : S = S' := by
    ext c
    rw [hS c, hS' c]
    exact ⟨fun hc => (Conn.reverse h).trans hc, fun hc => Conn.trans h hc⟩
  simp only [recordedArea, candidateArea, hrun, hrun', hSS]

/-- C16: the area `decideMove` records for a direction is the result of
`floodFill` on the landing cell from an all-unvisited matrix, exactly for the
legal directions and whatever was evaluated before; two legal directions whose
landing cells lie in the same component of free cells get equal areas. -/
theorem candidates_evaluated_on_fresh_matrix (bot : BotClient) :
    ∃ moves, movesLoop bot [0, 1, 2, 3] [] = .ok moves ∧
      (∀ d area, (d, area) ∈ moves ↔
        (is_valid_move bot d = .ok true ∧
          ∃ final, floodFill bot.state (bot.my_player.position + getDirectionVector d)
            (newVisited bot.state) = .ok (area, final))) ∧
      (∀ d d' area area', (d, area) ∈ moves → (d', area') ∈ moves →
        Connected bot.state (bot.my_player.position + getDirectionVector d)
          (bot.my_player.position + getDirectionVector d') →
        area = area') := by
  have hmem : ∀ d area, (d, area) ∈ (legalDirs bot).map (fun d => (d, recordedArea bot d)) ↔
      (Legal bot d ∧ area = recordedArea bot d) := by
    intro d area
    simp only [List.mem_map, Prod.mk.injEq, mem_legalDirs]
    constructor
    · rintro ⟨d1, hl, rfl, rfl⟩
      exact ⟨hl, rfl⟩
    · rintro ⟨hl, rfl⟩
      exact ⟨d, hl, rfl, rfl⟩
  refine ⟨_, movesLoop_canonical bot, ?_, ?_⟩
  · intro d area
    rw [hmem, legal_iff_valid]
    obtain ⟨final0, hfill⟩ := floodFill_landing bot d
    constructor
    · rintro ⟨hv, rfl⟩
      exact ⟨hv, final0, hfill⟩
    · rintro ⟨hv, final, hfinal⟩
      rw [hfill] at hfinal
      simp only [Outcome.ok.injEq, Prod.mk.injEq] at hfinal
      exact ⟨hv, hfinal.1.symm⟩
  · intro d d' area area' h1 h2 hconn
    rw [((hmem d area).mp h1).2, ((hmem d' area').mp h2).2]
    exact recordedArea_eq_of_connected bot d d' hconn

/-- When no position of the queue is open, the loop counts nothing and leaves
the visited matrix as it is. -/
theorem floodLoop_closed (state : GameState) :
    ∀ (fuel : Nat) (queue : List Vector2i) (visited : Visited) (area : Int),
      WellSized state visited → (∀ q ∈ queue, ¬ IsOpen state visited q) →
      queue.length < fuel →
      floodLoop state fuel queue visited area = .ok (area, visited) := by
  intro fuel
  induction fuel with
  | zero => intro _ _ _ _ _ h; omega
  | succ fuel ih =>
    intro queue visited area hw hclosed hfuel
    cases queue with
    | nil => rfl
    | cons pos queue =>
      simp only [List.length_cons] at hfuel
      have hpos := hclosed pos (List.mem_cons_self _ _)
      have hrest : ∀ q ∈ queue, ¬ IsOpen state visited q :=
        fun q hq => hclosed q (List.mem_cons_of_mem _ hq)
      cases hin : state.isInsideGrid pos with
      | false =>
        simp only [floodLoop, hin]
        exact ih _ _ _ hw hrest (by omega)
      | true =>
        obtain ⟨b, hb⟩ := vget_isSome_of_wellSized hw hin
        cases b with
        | true =>
          simp only [floodLoop, hin, hb]
          exact ih _ _ _ hw hrest (by omega)
        | false =>
          have hcell : state.grid pos ≠ 0 := fun hc => hpos ⟨⟨hin, hc⟩, hb⟩
          simp only [floodLoop, hin, hb, getGridCell_of_inside hin]
          simp only [bne_iff_ne, ne_eq, hcell, not_false_eq_true, if_true]
          exact ih _ _ _ hw hrest (by omega)

/-- C17: `floodFill` reads the game state and changes only the visited matrix
(the embedding returns the area and the matrix, nothing else). Called on an
all-unvisited matrix it leaves `true` at exactly the cells of the component of
free cells of the start cell, the area is the number of `true` entries, and a
second call on that same matrix for the same start returns 0 and leaves the
matrix as it is. -/
theorem floodFill_marks_component (state : GameState) (start_pos : Vector2i) :
    ∃ area final,
      floodFill state start_pos (newVisited state) = .ok (area, final) ∧
      (∀ c, vget final c = some true ↔ Connected state start_pos c) ∧
      WellSized state final ∧
      (trueCount final : Int) = area ∧
      floodFill state start_pos final = .ok (0, final) := by
  obtain ⟨S, final, hrun, hS, hwf, hfin⟩ := floodFill_fresh state start_pos
  have hvisited : ∀ c, vget final c = some true ↔ Connected state start_pos c :=
    fun c => by rw [hfin c, hS c]
  refine ⟨_, final, hrun, hvisited, hwf, ?_, ?_⟩
  · obtain ⟨n, hn1, hn2⟩ := floodLoop_count state _ _ _ _ _ _ hrun
    rw [trueCount_newVisited] at hn2
    rw [hn2, hn1]
    simp
  · refine floodLoop_closed state _ _ _ _ hwf ?_ (by simp [floodFuel])
    intro q hq hopen
    rw [List.mem_singleton] at hq
    subst hq
    have htrue := (hvisited q).mpr (Conn.refl q hopen.1)
    rw [hopen.2] at htrue
    exact absurd htrue (by simp)

theorem findPlayer_of_match (name : String) :
    ∀ (players : List Player), (∃ p ∈ players, p.name = name) →
      ∃ before p after, players = before ++ p :: after ∧
        (∀ q ∈ before, q.name ≠ name) ∧ p.name = name ∧
        ∀ held, findPlayer name players held = p := by
  intro players
  induction players with
  | nil => rintro ⟨p, hp, _⟩; exact absurd hp (List.not_mem_nil _)
  | cons player rest ih =>
    intro h
    by_cases hname : player.name = name
    · refine ⟨[], player, rest, rfl, ?_, hname, ?_⟩
      · intro q hq
        exact absurd hq (List.not_mem_nil _)
      · intro held
        simp [findPlayer, hname]
    · have hrest : ∃ p ∈ rest, p.name = name := by
        obtain ⟨p, hp, hpn⟩ := h
        rcases List.mem_cons.mp hp with rfl | hp
        · exact absurd hpn hname
        · exact ⟨p, hp, hpn⟩
      obtain ⟨before, p, after, hsplit, hbefore, hpn, hfind⟩ := ih hrest
      refine ⟨player :: before, p, after, by rw [hsplit]; rfl, ?_, hpn, ?_⟩
      · intro q hq
        rcases List.mem_cons.mp hq with rfl | hq
        · exact hname
        · exact hbefore q hq
      · intro held
        simp [findPlayer, hname, hfind held]

/-- C18: when the snapshot holds a player named like the agent,
`receiveGameState` replaces the game state by the snapshot and sets the
agent's player to the first such player of the list, whatever player was held
before the call. -/
theorem receiveGameState_takes_first_match (bot : BotClient) (snapshot : GameState)
    (h : ∃ p ∈ snapshot.players, p.name = bot.name) :
    ∃ before p after, snapshot.players = before ++ p :: after ∧
      (∀ q ∈ before, q.name ≠ bot.name) ∧ p.name = bot.name ∧
      ∀ held, receiveGameState { name := bot.name, state := bot.state, my_player := held }
        snapshot = .ok { name := bot.name, state := snapshot, my_player := p } := by
  obtain ⟨before, p, after, hsplit, hbefore, hpn, hfind⟩ :=
    findPlayer_of_match bot.name snapshot.players h
  refine ⟨before, p, after, hsplit, hbefore, hpn, ?_⟩
  intro held
  simp only [receiveGameState, hfind held]

/-- Instance of C18: two players carry the agent's name, the first one is
taken. -/
theorem receiveGameState_takes_first_match_witness :
    receiveGameState centreBot crowdedSnapshot =
      .ok { name := "zeid", state := crowdedSnapshot,
            my_player := { name := "zeid", position := ⟨3, 3⟩ } } ∧
    ∃ before p after, crowdedSnapshot.players = before ++ p :: after ∧
      (∀ q ∈ before, q.name ≠ centreBot.name) ∧ p.name = centreBot.name ∧
      ∀ held, receiveGameState
        { name := centreBot.name, state := centreBot.state, my_player := held }
        crowdedSnapshot = .ok { name := centreBot.name, state := crowdedSnapshot, my_player := p } :=
  ⟨rfl, receiveGameState_takes_first_match centreBot crowdedSnapshot
    ⟨{ name := "zeid", position := ⟨3, 3⟩ }, by decide, by decide⟩⟩

end Cycles
